import Mathlib

/-
Verification of the LNP/BP universal invoice library (LNPBP-38) core:
a shallow embedding of `src/base.rs` (the `Invoice` aggregate, its value
types, mutators, asset classification, beneficiary enumeration, amount
text grammar) together with a model of the canonical binary codec and
the bech32-style text codec that the derived encoders provide.
-/

namespace Invoices

/-- Byte sequences are modelled as lists of natural numbers; valid data
keeps every entry below 256. -/
abbrev Bytes := List Nat

/-- Little-endian base-256 encoding of `n` into exactly `k` bytes,
mirroring strict encoding of fixed-width unsigned integers. -/
def encBase : Nat → Nat → Bytes
  | 0, _ => []
  | k + 1, n => n % 256 :: encBase k (n / 256)

/-- Reader consuming exactly `k` bytes, returning the little-endian value
and the unread remainder. -/
def decBase : Nat → Bytes → Option (Nat × Bytes)
  | 0, bs => some (0, bs)
  | _ + 1, [] => none
  | k + 1, b :: bs => (decBase k bs).map (fun p => (b + 256 * p.1, p.2))

/-- Byte blob with a u16 little-endian length prefix (strict encoding of
`Vec<u8>` and UTF-8 strings). -/
def encBytes (b : Bytes) : Bytes := encBase 2 b.length ++ b

def decBytes (bs : Bytes) : Option (Bytes × Bytes) :=
  match decBase 2 bs with
  | none => none
  | some (len, r) =>
    if len ≤ r.length then some (r.take len, r.drop len) else none

/-- Strict encoding of `Option`: a zero flag byte for `None`, a one flag
byte followed by the payload for `Some`. -/
def encOpt (enc : α → Bytes) : Option α → Bytes
  | none => [0]
  | some x => 1 :: enc x

def decOpt (dec : Bytes → Option (α × Bytes)) : Bytes → Option (Option α × Bytes)
  | [] => none
  | 0 :: r => some (none, r)
  | 1 :: r => (dec r).map (fun p => (some p.1, p.2))
  | _ :: _ => none

/-- Strict encoding of a vector: u16 element count followed by each
element in order. -/
def encSeq (enc : α → Bytes) (l : List α) : Bytes :=
  encBase 2 l.length ++ (l.map enc).flatten

/-- Reader for exactly `k` consecutive elements. -/
def decSeqN (dec : Bytes → Option (α × Bytes)) : Nat → Bytes → Option (List α × Bytes)
  | 0, bs => some ([], bs)
  | k + 1, bs =>
    match dec bs with
    | none => none
    | some (x, r) => (decSeqN dec k r).map (fun p => (x :: p.1, p.2))

def decSeq (dec : Bytes → Option (α × Bytes)) (bs : Bytes) : Option (List α × Bytes) :=
  match decBase 2 bs with
  | none => none
  | some (n, r) => decSeqN dec n r

/-- `AmountExt` from base.rs: payment amount accepted by the invoice. -/
inductive AmountExt where
  /-- Payments for any amount are accepted. -/
  | Any : AmountExt
  /-- Normal amount in atomic units (u64). -/
  | Normal : Nat → AmountExt
  /-- Amount with a u64 integer part and a u16 milli part. -/
  | Milli : Nat → Nat → AmountExt
deriving DecidableEq

/-- `atomic_value` from base.rs: only `Normal` exposes an atomic value. -/
def AmountExt.atomic_value : AmountExt → Option Nat
  | .Any => none
  | .Normal val => some val
  | .Milli _ _ => none

/-- `Recurrent` from base.rs: interval between recurrent payments. -/
inductive Recurrent where
  | NonRecurrent : Recurrent
  /-- Each n (u64) seconds. -/
  | Seconds : Nat → Recurrent
  /-- Each n (u8) months. -/
  | Months : Nat → Recurrent
  /-- Each n (u8) years. -/
  | Years : Nat → Recurrent
deriving DecidableEq

/-- `Quantity` from base.rs: minimum, optional maximum and default item
count (u32 each). -/
structure Quantity where
  min : Nat
  max : Option Nat
  default : Nat
deriving DecidableEq

/-- `Iso4217` from base.rs: a three-byte currency code. -/
structure Iso4217 where
  b0 : Nat
  b1 : Nat
  b2 : Nat
deriving DecidableEq

/-- `CurrencyData` from base.rs: fiat floor-price requirement. The
price-provider URL string is modelled as its UTF-8 bytes. -/
structure CurrencyData where
  iso4217 : Iso4217
  coins : Nat
  fractions : Nat
  price_provider : Bytes
deriving DecidableEq

/-- `Details` from base.rs: commitment hash (sha256d, a 32-byte value
modelled as a natural number below 2^256) plus source locator string. -/
structure Details where
  commitment : Nat
  source : Bytes
deriving DecidableEq

/-- `Network` from base.rs: expected network of the invoice. -/
inductive Network where
  | Mainnet : Network
  | Testnet3 : Network
  | Regtest : Network
  | Signet : Network
  | LiquidV1 : Network
deriving DecidableEq

/-- `ConsignmentEndpoint` from base.rs. Modelled from the spec: the
`NodeAddr` payload of the Storm variant is an external address type
(out of core scope, spec section 1) and is modelled as its canonical byte
serialization; the RGB HTTP JSON-RPC URL is its UTF-8 bytes. -/
inductive ConsignmentEndpoint where
  | Storm : Bytes → ConsignmentEndpoint
  | RgbHttpJsonRpc : Bytes → ConsignmentEndpoint
deriving DecidableEq

/-- `Beneficiary` from base.rs: closed union of payment destinations plus
an open fallback. Modelled from the spec: the payload types (bitcoin
address, concealed seal, miniscript descriptor, PSBT, lightning address)
are external collaborator types (out of core scope, spec sections 1 and
6); each is modelled as its canonical byte serialization, so each variant
carries an opaque, owned byte blob. -/
inductive Beneficiary where
  | Address : Bytes → Beneficiary
  | BlindUtxo : Bytes → Beneficiary
  | Descriptor : Bytes → Beneficiary
  | Psbt : Bytes → Beneficiary
  | Bolt : Bytes → Beneficiary
  | Unknown : Bytes → Beneficiary
deriving DecidableEq

/-- A secp256k1 public key: an external 33-byte value, modelled as a
natural number below 2^264. -/
abbrev PublicKey := Nat

/-- A schnorr signature: an external 64-byte value, modelled as a natural
number below 2^512. -/
abbrev SchnorrSig := Nat

/-- An asset id (32-byte hash from the chain registry), modelled as a
natural number below 2^256. -/
abbrev AssetId := Nat

/-- Modelled from the spec: the chain type of the external chain/asset
registry (spec section 6) with the variants the source matches on. -/
inductive Chain where
  | Mainnet : Chain
  | Testnet3 : Chain
  | Regtest : Nat → Chain
  | Signet : Chain
  | LiquidV1 : Chain
deriving DecidableEq

/-- Modelled from the spec: each chain's native-asset id, supplied by the
external registry; native-asset ids are unique per chain (spec section
4.2 tie-break rule). -/
def Chain.native_asset : Chain → AssetId
  | .Mainnet => 0
  | .Testnet3 => 1
  | .Signet => 2
  | .LiquidV1 => 3
  | .Regtest h => 4 + h

/-- `AssetClass` from base.rs (build without the rgb feature): result of
asset classification. -/
inductive AssetClass where
  | Native : AssetClass
  | Other : AssetId → AssetClass
  | InvalidNativeChain : AssetClass
deriving DecidableEq

/-- An unknown-tag TLV record stream: ordered (tag, payload) pairs. -/
abbrev TlvStream := List (Nat × Bytes)

/-- `Invoice` from base.rs. Optional free-text fields (merchant, purpose)
are UTF-8 byte strings; `expiry` is the i64 timestamp a `NaiveDateTime`
maps to. -/
structure Invoice where
  version : Nat
  amount : AmountExt
  beneficiary : Beneficiary
  alt_beneficiaries : List Beneficiary
  asset : Option AssetId
  expiry : Option Int
  recurrent : Recurrent
  quantity : Option Quantity
  currency_requirement : Option CurrencyData
  merchant : Option Bytes
  purpose : Option Bytes
  details : Option Details
  signature : Option (PublicKey × SchnorrSig)
  consignment_endpoints : List ConsignmentEndpoint
  network : Option Network
  unknown : TlvStream
deriving DecidableEq

/-- `Invoice::new` from base.rs. -/
def Invoice.new (beneficiary : Beneficiary) (amount : Option Nat)
    (asset : Option AssetId) : Invoice where
  version := 0
  amount := match amount with
    | some value => AmountExt.Normal value
    | none => AmountExt.Any
  beneficiary := beneficiary
  alt_beneficiaries := []
  asset := asset
  expiry := none
  recurrent := Recurrent.NonRecurrent
  quantity := none
  currency_requirement := none
  merchant := none
  purpose := none
  details := none
  signature := none
  consignment_endpoints := []
  network := none
  unknown := []

/-- Chains checked by the source against an explicit asset id
(`classify_asset`, base.rs lines 253-263). -/
def registryChains : List Chain :=
  [Chain.Mainnet, Chain.Signet, Chain.LiquidV1, Chain.Testnet3]

/-- `Invoice::classify_asset` from base.rs (build without the rgb
feature, so the last arm yields `AssetClass::Other`). -/
def Invoice.classify_asset (v : Invoice) (chain : Option Chain) : AssetClass :=
  match v.asset, chain with
  | none, some Chain.Mainnet => AssetClass.Native
  | none, _ => AssetClass.InvalidNativeChain
  | some asset_id, c =>
    if (match c with
        | some ch => asset_id == ch.native_asset
        | none => false) then
      AssetClass.Native
    else if ((registryChains.map Chain.native_asset).find?
        (fun id => id == asset_id)).isSome then
      AssetClass.InvalidNativeChain
    else
      AssetClass.Other asset_id

/-- `BeneficiariesIter` from base.rs: a borrow of the invoice plus a
cursor. -/
structure BeneficiariesIter where
  invoice : Invoice
  index : Nat

/-- `Invoice::beneficiaries` from base.rs. -/
def Invoice.beneficiaries (v : Invoice) : BeneficiariesIter :=
  { invoice := v, index := 0 }

/-- `Iterator::next` for `BeneficiariesIter` from base.rs: increment the
cursor, yield the primary beneficiary first and then the alternates. The
returned iterator state models the mutated `self`. -/
def BeneficiariesIter.next (it : BeneficiariesIter) :
    Option Beneficiary × BeneficiariesIter :=
  let index := it.index + 1
  (if index = 1 then some it.invoice.beneficiary
   else it.invoice.alt_beneficiaries.get? (index - 2),
   { it with index := index })

/-- Item yielded by the k-th successive `next` call on an iterator. -/
def BeneficiariesIter.nthYield (it : BeneficiariesIter) : Nat → Option Beneficiary
  | 0 => it.next.1
  | k + 1 => it.next.2.nthYield k

/-- `Invoice::set_amount` from base.rs: no-op returning false when the
amount is unchanged, otherwise update the amount, clear the signature and
return true. The pair is (state of `self` after the call, return value). -/
def Invoice.set_amount (v : Invoice) (amount : AmountExt) : Invoice × Bool :=
  if v.amount = amount then (v, false)
  else ({ v with amount := amount, signature := none }, true)

/-- `Invoice::set_recurrent` from base.rs. -/
def Invoice.set_recurrent (v : Invoice) (recurrent : Recurrent) : Invoice × Bool :=
  if v.recurrent = recurrent then (v, false)
  else ({ v with recurrent := recurrent, signature := none }, true)

/-- `Invoice::set_expiry` from base.rs. -/
def Invoice.set_expiry (v : Invoice) (expiry : Int) : Invoice × Bool :=
  if v.expiry = some expiry then (v, false)
  else ({ v with expiry := some expiry, signature := none }, true)

/-- `Invoice::set_no_expiry` from base.rs. -/
def Invoice.set_no_expiry (v : Invoice) : Invoice × Bool :=
  if v.expiry = none then (v, false)
  else ({ v with expiry := none, signature := none }, true)

/-- `Invoice::set_quantity` from base.rs. -/
def Invoice.set_quantity (v : Invoice) (quantity : Quantity) : Invoice × Bool :=
  if v.quantity = some quantity then (v, false)
  else ({ v with quantity := some quantity, signature := none }, true)

/-- `Invoice::remove_quantity` from base.rs. -/
def Invoice.remove_quantity (v : Invoice) : Invoice × Bool :=
  if v.quantity = none then (v, false)
  else ({ v with quantity := none, signature := none }, true)

/-- `Invoice::set_currency_requirement` from base.rs. -/
def Invoice.set_currency_requirement (v : Invoice) (currency_data : CurrencyData) :
    Invoice × Bool :=
  if v.currency_requirement = some currency_data then (v, false)
  else
    ({ v with currency_requirement := some currency_data, signature := none },
      true)

/-- `Invoice::remove_currency_requirement` from base.rs. -/
def Invoice.remove_currency_requirement (v : Invoice) : Invoice × Bool :=
  if v.currency_requirement = none then (v, false)
  else ({ v with currency_requirement := none, signature := none }, true)

/-- `Invoice::set_merchant` from base.rs: an empty string is normalized
to an absent merchant. -/
def Invoice.set_merchant (v : Invoice) (merchant : Bytes) : Invoice × Bool :=
  let merchant := if merchant.isEmpty then none else some merchant
  if v.merchant = merchant then (v, false)
  else ({ v with merchant := merchant, signature := none }, true)

/-- `Invoice::remove_merchant` from base.rs. -/
def Invoice.remove_merchant (v : Invoice) : Invoice × Bool :=
  if v.merchant = none then (v, false)
  else ({ v with merchant := none, signature := none }, true)

/-- `Invoice::set_purpose` from base.rs: an empty string is normalized to
an absent purpose. -/
def Invoice.set_purpose (v : Invoice) (purpose : Bytes) : Invoice × Bool :=
  let purpose := if purpose.isEmpty then none else some purpose
  if v.purpose = purpose then (v, false)
  else ({ v with purpose := purpose, signature := none }, true)

/-- `Invoice::remove_purpose` from base.rs. -/
def Invoice.remove_purpose (v : Invoice) : Invoice × Bool :=
  if v.purpose = none then (v, false)
  else ({ v with purpose := none, signature := none }, true)

/-- `Invoice::set_details` from base.rs. -/
def Invoice.set_details (v : Invoice) (details : Details) : Invoice × Bool :=
  if v.details = some details then (v, false)
  else ({ v with details := some details, signature := none }, true)

/-- `Invoice::remove_details` from base.rs. -/
def Invoice.remove_details (v : Invoice) : Invoice × Bool :=
  if v.details = none then (v, false)
  else ({ v with details := none, signature := none }, true)

/-- `Invoice::add_consignment_endpoint` from base.rs: note that, unlike
the field setters above, it does not clear the signature. -/
def Invoice.add_consignment_endpoint (v : Invoice) (node : ConsignmentEndpoint) :
    Invoice × Bool :=
  if node ∈ v.consignment_endpoints then (v, false)
  else ({ v with consignment_endpoints := v.consignment_endpoints ++ [node] }, true)

/-- `Invoice::set_network` from base.rs: note that, unlike the field
setters above, it does not clear the signature. -/
def Invoice.set_network (v : Invoice) (network : Network) : Invoice × Bool :=
  if v.network = some network then (v, false)
  else ({ v with network := some network }, true)

/-- `Invoice::set_signature` from base.rs. -/
def Invoice.set_signature (v : Invoice) (pubkey : PublicKey)
    (signature : SchnorrSig) : Invoice :=
  { v with signature := some (pubkey, signature) }

/-- `Invoice::remove_signature` from base.rs. -/
def Invoice.remove_signature (v : Invoice) : Invoice :=
  { v with signature := none }

/-- Modelled from the spec: canonical encoding of `AmountExt` (derived
strict encoding, external macro): a u8 discriminant in declaration order
followed by the variant payload. -/
def encAmount : AmountExt → Bytes
  | .Any => [0]
  | .Normal n => 1 :: encBase 8 n
  | .Milli n f => 2 :: (encBase 8 n ++ encBase 2 f)

def decAmount : Bytes → Option (AmountExt × Bytes)
  | 0 :: r => some (.Any, r)
  | 1 :: r => (decBase 8 r).map (fun p => (.Normal p.1, p.2))
  | 2 :: r =>
    match decBase 8 r with
    | none => none
    | some (n, r2) => (decBase 2 r2).map (fun p => (.Milli n p.1, p.2))
  | _ => none

/-- Modelled from the spec: canonical encoding of `Recurrent`. -/
def encRecurrent : Recurrent → Bytes
  | .NonRecurrent => [0]
  | .Seconds n => 1 :: encBase 8 n
  | .Months n => 2 :: encBase 1 n
  | .Years n => 3 :: encBase 1 n

def decRecurrent : Bytes → Option (Recurrent × Bytes)
  | 0 :: r => some (.NonRecurrent, r)
  | 1 :: r => (decBase 8 r).map (fun p => (.Seconds p.1, p.2))
  | 2 :: r => (decBase 1 r).map (fun p => (.Months p.1, p.2))
  | 3 :: r => (decBase 1 r).map (fun p => (.Years p.1, p.2))
  | _ => none

/-- Modelled from the spec: canonical encoding of `Quantity` in field
declaration order. -/
def encQuantity (q : Quantity) : Bytes :=
  encBase 4 q.min ++ encOpt (encBase 4) q.max ++ encBase 4 q.default

def decQuantity (bs : Bytes) : Option (Quantity × Bytes) :=
  match decBase 4 bs with
  | none => none
  | some (mn, r1) =>
  match decOpt (decBase 4) r1 with
  | none => none
  | some (mx, r2) => (decBase 4 r2).map (fun p => (⟨mn, mx, p.1⟩, p.2))

/-- Canonical encoding of `Iso4217`: the three raw bytes, mirroring the
hand-written `StrictEncode` implementation in base.rs. -/
def encIso (i : Iso4217) : Bytes := [i.b0, i.b1, i.b2]

def decIso : Bytes → Option (Iso4217 × Bytes)
  | b0 :: b1 :: b2 :: r => some (⟨b0, b1, b2⟩, r)
  | _ => none

/-- Modelled from the spec: canonical encoding of `CurrencyData` in field
declaration order. -/
def encCurrency (c : CurrencyData) : Bytes :=
  encIso c.iso4217 ++ encBase 4 c.coins ++ encBase 1 c.fractions ++
    encBytes c.price_provider

def decCurrency (bs : Bytes) : Option (CurrencyData × Bytes) :=
  match decIso bs with
  | none => none
  | some (iso, r1) =>
  match decBase 4 r1 with
  | none => none
  | some (coins, r2) =>
  match decBase 1 r2 with
  | none => none
  | some (fr, r3) => (decBytes r3).map (fun p => (⟨iso, coins, fr, p.1⟩, p.2))

/-- Modelled from the spec: canonical encoding of `Details`: the 32-byte
commitment hash followed by the length-prefixed source locator. -/
def encDetails (d : Details) : Bytes :=
  encBase 32 d.commitment ++ encBytes d.source

def decDetails (bs : Bytes) : Option (Details × Bytes) :=
  match decBase 32 bs with
  | none => none
  | some (c, r1) => (decBytes r1).map (fun p => (⟨c, p.1⟩, p.2))

/-- Modelled from the spec: canonical encoding of `Network`: a u8
discriminant in declaration order. -/
def encNetwork : Network → Bytes
  | .Mainnet => [0]
  | .Testnet3 => [1]
  | .Regtest => [2]
  | .Signet => [3]
  | .LiquidV1 => [4]

def decNetwork : Bytes → Option (Network × Bytes)
  | 0 :: r => some (.Mainnet, r)
  | 1 :: r => some (.Testnet3, r)
  | 2 :: r => some (.Regtest, r)
  | 3 :: r => some (.Signet, r)
  | 4 :: r => some (.LiquidV1, r)
  | _ => none

/-- Modelled from the spec: canonical encoding of a consignment endpoint:
u8 discriminant plus length-prefixed payload bytes. -/
def encEndpoint : ConsignmentEndpoint → Bytes
  | .Storm a => 0 :: encBytes a
  | .RgbHttpJsonRpc u => 1 :: encBytes u

def decEndpoint : Bytes → Option (ConsignmentEndpoint × Bytes)
  | 0 :: r => (decBytes r).map (fun p => (.Storm p.1, p.2))
  | 1 :: r => (decBytes r).map (fun p => (.RgbHttpJsonRpc p.1, p.2))
  | _ => none

/-- Modelled from the spec: canonical encoding of a beneficiary: u8
discriminant in declaration order plus the length-prefixed serialization
of the variant payload. -/
def encBeneficiary : Beneficiary → Bytes
  | .Address b => 0 :: encBytes b
  | .BlindUtxo b => 1 :: encBytes b
  | .Descriptor b => 2 :: encBytes b
  | .Psbt b => 3 :: encBytes b
  | .Bolt b => 4 :: encBytes b
  | .Unknown b => 5 :: encBytes b

def decBeneficiary : Bytes → Option (Beneficiary × Bytes)
  | 0 :: r => (decBytes r).map (fun p => (.Address p.1, p.2))
  | 1 :: r => (decBytes r).map (fun p => (.BlindUtxo p.1, p.2))
  | 2 :: r => (decBytes r).map (fun p => (.Descriptor p.1, p.2))
  | 3 :: r => (decBytes r).map (fun p => (.Psbt p.1, p.2))
  | 4 :: r => (decBytes r).map (fun p => (.Bolt p.1, p.2))
  | 5 :: r => (decBytes r).map (fun p => (.Unknown p.1, p.2))
  | _ => none

/-- Modelled from the spec: canonical encoding of the signature record
payload: the 33-byte public key followed by the 64-byte signature. -/
def encSigPair (s : PublicKey × SchnorrSig) : Bytes :=
  encBase 33 s.1 ++ encBase 64 s.2

def decSigPair (bs : Bytes) : Option ((PublicKey × SchnorrSig) × Bytes) :=
  match decBase 33 bs with
  | none => none
  | some (pk, r1) => (decBase 64 r1).map (fun p => ((pk, p.1), p.2))

/-- Modelled from the spec: canonical encoding of the i64 expiry
timestamp in two's complement, little-endian. -/
def encI64 (t : Int) : Bytes :=
  encBase 8 (if t < 0 then (t + 2 ^ 64).toNat else t.toNat)

def decI64 (bs : Bytes) : Option (Int × Bytes) :=
  (decBase 8 bs).map
    (fun p => (if p.1 < 2 ^ 63 then (p.1 : Int) else (p.1 : Int) - 2 ^ 64, p.2))

/-- TLV record list for one optional field: absent fields produce no
record. -/
def optRecord (tag : Nat) (enc : α → Bytes) : Option α → TlvStream
  | none => []
  | some x => [(tag, enc x)]

/-- TLV record list for a vector field: an empty vector produces no
record. -/
def vecRecord (tag : Nat) (enc : α → Bytes) (l : List α) : TlvStream :=
  if l.isEmpty then [] else [(tag, encSeq enc l)]

/-- TLV record list for the recurrence field: the default (non-recurrent)
value produces no record. -/
def recRecord (r : Recurrent) : TlvStream :=
  if r = .NonRecurrent then [] else [(0x04, encRecurrent r)]

/-- Modelled from the spec: the tagged optional records of an invoice,
tag registry as in base.rs (signature 0x00, alternates 0x01, asset 0x02,
expiry 0x03, recurrence 0x04, merchant 0x05, quantity 0x06, purpose
0x07, currency requirement 0x08, details 0x09, endpoints 0x0a, network
0x0b), recognized records in tag order followed by the retained
unknown-tag records in their stored order. -/
def Invoice.tlvRecords (v : Invoice) : TlvStream :=
  optRecord 0x00 encSigPair v.signature ++
  vecRecord 0x01 encBeneficiary v.alt_beneficiaries ++
  optRecord 0x02 (encBase 32) v.asset ++
  optRecord 0x03 encI64 v.expiry ++
  recRecord v.recurrent ++
  optRecord 0x05 encBytes v.merchant ++
  optRecord 0x06 encQuantity v.quantity ++
  optRecord 0x07 encBytes v.purpose ++
  optRecord 0x08 encCurrency v.currency_requirement ++
  optRecord 0x09 encDetails v.details ++
  vecRecord 0x0a encEndpoint v.consignment_endpoints ++
  optRecord 0x0b encNetwork v.network ++
  v.unknown

/-- Modelled from the spec: byte layout of the TLV section: for each
record a u8 tag, a u16 payload length and the payload, self-delimiting. -/
def encodeRecords (rs : TlvStream) : Bytes :=
  (rs.map (fun r => r.1 :: (encBase 2 r.2.length ++ r.2))).flatten

/-- Modelled from the spec: the canonical binary encoding: fixed-position
core fields (version, amount, primary beneficiary) followed by the
tagged optional records. -/
def Invoice.encode (v : Invoice) : Bytes :=
  encBase 1 v.version ++ encAmount v.amount ++ encBeneficiary v.beneficiary ++
    encodeRecords v.tlvRecords

/-- Fuelled reader for the TLV record section; the fuel is the byte count
of the section, which bounds the number of records. -/
def decRecordsGo : Nat → Bytes → Option TlvStream
  | _, [] => some []
  | 0, _ :: _ => none
  | fuel + 1, t :: rest =>
    match decBase 2 rest with
    | none => none
    | some (len, r2) =>
      if len ≤ r2.length then
        (decRecordsGo fuel (r2.drop len)).map (fun rs => (t, r2.take len) :: rs)
      else none

def decodeRecords (bs : Bytes) : Option TlvStream :=
  decRecordsGo bs.length bs

/-- Run a reader on a record payload, requiring it to consume the whole
payload. -/
def runFull (dec : Bytes → Option (α × Bytes)) (p : Bytes) : Option α :=
  match dec p with
  | some (x, []) => some x
  | _ => none

/-- Invoice holding the fixed-position core fields, every optional field
still absent; the state of the decoder before the TLV section is read. -/
def baseInvoice (version : Nat) (amount : AmountExt) (beneficiary : Beneficiary) :
    Invoice where
  version := version
  amount := amount
  beneficiary := beneficiary
  alt_beneficiaries := []
  asset := none
  expiry := none
  recurrent := Recurrent.NonRecurrent
  quantity := none
  currency_requirement := none
  merchant := none
  purpose := none
  details := none
  signature := none
  consignment_endpoints := []
  network := none
  unknown := []

/-- Modelled from the spec: route one decoded record into the invoice:
tags of the fixed registry populate their field, any other tag is
retained verbatim as an extension record. -/
def Invoice.applyRecord (v : Invoice) (r : Nat × Bytes) : Option Invoice :=
  if r.1 = 0x00 then
    (runFull decSigPair r.2).map (fun s => { v with signature := some s })
  else if r.1 = 0x01 then
    (runFull (decSeq decBeneficiary) r.2).map
      (fun l => { v with alt_beneficiaries := l })
  else if r.1 = 0x02 then
    (runFull (decBase 32) r.2).map (fun a => { v with asset := some a })
  else if r.1 = 0x03 then
    (runFull decI64 r.2).map (fun t => { v with expiry := some t })
  else if r.1 = 0x04 then
    (runFull decRecurrent r.2).map (fun x => { v with recurrent := x })
  else if r.1 = 0x05 then
    (runFull decBytes r.2).map (fun m => { v with merchant := some m })
  else if r.1 = 0x06 then
    (runFull decQuantity r.2).map (fun q => { v with quantity := some q })
  else if r.1 = 0x07 then
    (runFull decBytes r.2).map (fun p => { v with purpose := some p })
  else if r.1 = 0x08 then
    (runFull decCurrency r.2).map
      (fun c => { v with currency_requirement := some c })
  else if r.1 = 0x09 then
    (runFull decDetails r.2).map (fun d => { v with details := some d })
  else if r.1 = 0x0a then
    (runFull (decSeq decEndpoint) r.2).map
      (fun l => { v with consignment_endpoints := l })
  else if r.1 = 0x0b then
    (runFull decNetwork r.2).map (fun n => { v with network := some n })
  else
    some { v with unknown := v.unknown ++ [r] }

def Invoice.applyRecords (v : Invoice) : TlvStream → Option Invoice
  | [] => some v
  | r :: rs =>
    match v.applyRecord r with
    | none => none
    | some v2 => v2.applyRecords rs

/-- Modelled from the spec: the canonical binary decoder: read the core
fields, then split the remaining bytes into self-delimiting records and
route each into the invoice. -/
def Invoice.decode (bs : Bytes) : Option Invoice :=
  match decBase 1 bs with
  | none => none
  | some (ver, r1) =>
  match decAmount r1 with
  | none => none
  | some (amt, r2) =>
  match decBeneficiary r2 with
  | none => none
  | some (ben, r3) =>
  match decodeRecords r3 with
  | none => none
  | some recs => (baseInvoice ver amt ben).applyRecords recs

/-- A byte blob the source can serialize: entries are bytes and the
length fits the u16 length prefix. -/
def bytesValid (b : Bytes) : Bool :=
  decide (b.length < 65536) && b.all (fun x => decide (x < 256))

/-- Field values representable by the source's Rust types. -/
def AmountExt.valid : AmountExt → Bool
  | .Any => true
  | .Normal n => decide (n < 2 ^ 64)
  | .Milli n f => decide (n < 2 ^ 64) && decide (f < 2 ^ 16)

def Recurrent.valid : Recurrent → Bool
  | .NonRecurrent => true
  | .Seconds n => decide (n < 2 ^ 64)
  | .Months n => decide (n < 256)
  | .Years n => decide (n < 256)

def Quantity.valid (q : Quantity) : Bool :=
  decide (q.min < 2 ^ 32) &&
  (match q.max with
   | none => true
   | some m => decide (m < 2 ^ 32)) &&
  decide (q.default < 2 ^ 32)

def Iso4217.valid (i : Iso4217) : Bool :=
  decide (i.b0 < 256) && decide (i.b1 < 256) && decide (i.b2 < 256)

def CurrencyData.valid (c : CurrencyData) : Bool :=
  c.iso4217.valid && decide (c.coins < 2 ^ 32) && decide (c.fractions < 256) &&
    bytesValid c.price_provider

def Details.valid (d : Details) : Bool :=
  decide (d.commitment < 2 ^ 256) && bytesValid d.source

def Beneficiary.valid : Beneficiary → Bool
  | .Address b => bytesValid b
  | .BlindUtxo b => bytesValid b
  | .Descriptor b => bytesValid b
  | .Psbt b => bytesValid b
  | .Bolt b => bytesValid b
  | .Unknown b => bytesValid b

def ConsignmentEndpoint.valid : ConsignmentEndpoint → Bool
  | .Storm b => bytesValid b
  | .RgbHttpJsonRpc b => bytesValid b

/-- An invoice the source can construct and serialize: every numeric
field fits its Rust machine type, every blob is a serializable byte
string, every TLV record payload fits the u16 record length, and
retained unknown records carry byte tags outside the recognized
registry. -/
def Invoice.valid (v : Invoice) : Bool :=
  decide (v.version < 256) &&
  v.amount.valid &&
  v.beneficiary.valid &&
  decide (v.alt_beneficiaries.length < 65536) &&
  v.alt_beneficiaries.all Beneficiary.valid &&
  (match v.asset with
   | none => true
   | some a => decide (a < 2 ^ 256)) &&
  (match v.expiry with
   | none => true
   | some t => decide (-(2 ^ 63) ≤ t) && decide (t < 2 ^ 63)) &&
  v.recurrent.valid &&
  (match v.quantity with
   | none => true
   | some q => q.valid) &&
  (match v.currency_requirement with
   | none => true
   | some c => c.valid) &&
  (match v.merchant with
   | none => true
   | some m => bytesValid m) &&
  (match v.purpose with
   | none => true
   | some p => bytesValid p) &&
  (match v.details with
   | none => true
   | some d => d.valid) &&
  (match v.signature with
   | none => true
   | some s => decide (s.1 < 2 ^ 264) && decide (s.2 < 2 ^ 512)) &&
  decide (v.consignment_endpoints.length < 65536) &&
  v.consignment_endpoints.all ConsignmentEndpoint.valid &&
  v.unknown.all (fun r => decide (0x0b < r.1) && decide (r.1 < 256) &&
    bytesValid r.2) &&
  v.tlvRecords.all (fun r => decide (r.2.length < 65536))

/-- Modelled from the spec: `MerkleNode::hash`, the cryptographic digest
over the serialized bytes, is an external collaborator (spec section 6).
Collision resistance is idealized: the digest is represented by the byte
sequence it commits to, so digest equality coincides with equality of
the hashed bytes. -/
abbrev MerkleNode := Bytes

def merkleHash (b : Bytes) : MerkleNode := b

/-- `Invoice::signature_hash` from base.rs: the digest over
`strict_serialize(self)`; the serialized bytes are those of the invoice
as it currently is. -/
def Invoice.signature_hash (v : Invoice) : MerkleNode :=
  merkleHash v.encode

/-- The 32-character human-transcribable bech32 alphabet used by the text
codec. -/
def charset : List Char := "qpzry9x8gf2tvdw0s3jn54khce6mua7l".data

def charIdx (c : Char) : Option Nat := charset.indexOf? c

/-- Modelled from the spec: text transcription of the canonical bytes;
each byte becomes two alphabet characters (high five bits, low five
bits). The deflate compression stage applied by the external bech32
codec is an unspecified lossless transform and is modelled as the
identity. -/
def bytesToChars : Bytes → List Char
  | [] => []
  | b :: r =>
    charset.getD (b / 32 % 8) 'q' :: charset.getD (b % 32) 'q' :: bytesToChars r

/-- Modelled from the spec: checksum over the canonical bytes appended to
the text form; a ten-bit value rendered as two alphabet characters. -/
def checksum (bs : Bytes) : Nat :=
  bs.foldl (fun a b => (a + b) % 1024) 0

def pairChars (c : Nat) : List Char :=
  [charset.getD (c / 32 % 32) 'q', charset.getD (c % 32) 'q']

/-- Inverse transcription: consume characters two at a time, failing on
any character outside the alphabet or on odd length. -/
def charsToVals : List Char → Option Bytes
  | [] => some []
  | [_] => none
  | c1 :: c2 :: r =>
    match charIdx c1, charIdx c2 with
    | some i1, some i2 => (charsToVals r).map (fun bs => (32 * i1 + i2) :: bs)
    | _, _ => none

/-- Modelled from the spec: the text encoding of an invoice: the
human-readable prefix for invoices, a separator, the transcribed
canonical bytes and the checksum (`Display` for `Invoice` delegates to
`to_bech32_string` with HRP "i"). -/
def Invoice.toText (v : Invoice) : String :=
  ⟨'i' :: '1' :: (bytesToChars v.encode ++ pairChars (checksum v.encode))⟩

/-- Modelled from the spec: parsing the text form: strip and verify the
prefix, map characters back through the alphabet, split off and verify
the checksum, then hand the bytes to the binary decoder (`FromStr` for
`Invoice` delegates to `from_bech32_str`). Any prefix, alphabet or
checksum violation is a parse failure. -/
def Invoice.parseText (s : String) : Option Invoice :=
  match s.data with
  | 'i' :: '1' :: rest =>
    (match charsToVals rest with
     | none => none
     | some vals =>
       match vals.reverse with
       | [] => none
       | cs :: dataRev =>
         let bs := dataRev.reverse
         if checksum bs = cs then Invoice.decode bs else none)
  | _ => none

/-- Lexicographic comparison of character lists, mirroring Rust's
`str::cmp` (byte-lexicographic, which agrees with code-point order on
UTF-8 text). -/
def charsCmp : List Char → List Char → Ordering
  | [], [] => .eq
  | [], _ :: _ => .lt
  | _ :: _, [] => .gt
  | a :: as, b :: bs =>
    if a < b then .lt else if b < a then .gt else charsCmp as bs

/-- `Ord for Invoice` from base.rs: compare the display strings of the
two invoices. -/
def Invoice.cmp (x y : Invoice) : Ordering :=
  charsCmp x.toText.data y.toText.data

/-- The strict order derived from `Ord for Invoice` (Rust `x < y`). -/
def Invoice.ltInv (x y : Invoice) : Prop :=
  x.cmp y = Ordering.lt

/-- ASCII whitespace recognized by the trimming step of the amount
grammar. -/
def isWS (c : Char) : Bool :=
  c = ' ' || c = '\t' || c = '\n' || c = '\r'

def trimChars (l : List Char) : List Char :=
  ((l.dropWhile isWS).reverse.dropWhile isWS).reverse

/-- ASCII lower-casing used by the case-insensitive "any" test. -/
def lowerChar (c : Char) : Char :=
  if 'A' ≤ c ∧ c ≤ 'Z' then Char.ofNat (c.toNat + 32) else c

/-- Rust integer parsing (`str::parse` for unsigned types): an optional
leading plus sign, one or more ASCII digits, value within the type's
range; anything else is an error. -/
def parseNum (bound : Nat) (l : List Char) : Option Nat :=
  let ds := match l with
    | '+' :: r => r
    | _ => l
  if ds.isEmpty then none
  else if ds.all Char.isDigit then
    let v := ds.foldl (fun a c => a * 10 + (c.toNat - 48)) 0
    if v < bound then some v else none
  else none

/-- Rust `str::split('.')`: the list of dot-separated components; an
empty input yields one empty component. -/
def splitDot : List Char → List (List Char)
  | [] => [[]]
  | c :: cs =>
    if c = '.' then [] :: splitDot cs
    else
      match splitDot cs with
      | [] => [[c]]
      | g :: gs => (c :: g) :: gs

/-- `FromStr for AmountExt` from base.rs: a case-insensitive trimmed
"any" parses to `Any`; otherwise the input is split on dots, one
component parses as `Normal`, two or more parse the first two as
`Milli`; a failure of the numeric grammar is a parse error (`none`). -/
def AmountExt.fromStr (s : String) : Option AmountExt :=
  if (trimChars s.data).map lowerChar = "any".data then some AmountExt.Any
  else
    match splitDot s.data with
    | [c0] => (parseNum (2 ^ 64) c0).map AmountExt.Normal
    | c0 :: c1 :: _ =>
      (match parseNum (2 ^ 64) c0, parseNum (2 ^ 16) c1 with
       | some a, some b => some (AmountExt.Milli a b)
       | _, _ => none)
    | [] => none

/-- Concrete beneficiary used by the concrete test invoices. -/
def benFix : Beneficiary := Beneficiary.Address [7, 8]

/-- A freshly constructed concrete invoice. -/
def unsignedFix : Invoice := Invoice.new benFix (some 5) none

/-- The same invoice after a signature has been attached. -/
def signedFix : Invoice := unsignedFix.set_signature 1 2

/-- A concrete invoice populating every optional field, an alternate
beneficiary, a consignment endpoint and a retained unknown record. -/
def richFix : Invoice :=
  { Invoice.new benFix (some 5) (some 3) with
      merchant := some [65, 66],
      signature := some (9, 10),
      recurrent := Recurrent.Seconds 60,
      alt_beneficiaries := [Beneficiary.Unknown [1]],
      consignment_endpoints := [ConsignmentEndpoint.Storm [2]],
      expiry := some (-5),
      network := some Network.Mainnet,
      quantity := some ⟨0, none, 1⟩,
      currency_requirement := some ⟨⟨85, 83, 68⟩, 1, 2, [104]⟩,
      details := some ⟨77, [115]⟩,
      purpose := some [80],
      unknown := [(200, [1, 2, 3])] }

theorem encBase_length (k n : Nat) : (encBase k n).length = k := by
  induction k generalizing n with
  | zero => rfl
  | succ k ih => simp [encBase, ih]

theorem encBase_mem_lt (k n : Nat) : ∀ x ∈ encBase k n, x < 256 := by
  induction k generalizing n with
  | zero => simp [encBase]
  | succ k ih =>
    intro x hx
    simp only [encBase, List.mem_cons] at hx
    rcases hx with h | h
    · omega
    · exact ih (n / 256) x h

theorem decBase_encBase (k n : Nat) (r : Bytes) :
    decBase k (encBase k n ++ r) = some (n % 256 ^ k, r) := by
  induction k generalizing n with
  | zero => simp [encBase, decBase, Nat.mod_one]
  | succ k ih =>
    have h : n % 256 ^ (k + 1) = n % 256 + 256 * (n / 256 % 256 ^ k) := by
      rw [pow_succ, mul_comm (256 ^ k) 256, Nat.mod_mul]
    simp [encBase, decBase, ih, h]

theorem decBase_encBase_lt {k n : Nat} (r : Bytes) (h : n < 256 ^ k) :
    decBase k (encBase k n ++ r) = some (n, r) := by
  rw [decBase_encBase, Nat.mod_eq_of_lt h]

theorem decBytes_encBytes {b : Bytes} (r : Bytes) (h : b.length < 65536) :
    decBytes (encBytes b ++ r) = some (b, r) := by
  have h2 : b.length < 256 ^ 2 := h
  simp only [encBytes, decBytes, List.append_assoc, decBase_encBase_lt (b ++ r) h2]
  rw [if_pos (by simp)]
  simp

theorem decOpt_encOpt {enc : α → Bytes} {dec : Bytes → Option (α × Bytes)}
    {o : Option α} (r : Bytes)
    (h : ∀ x, o = some x → dec (enc x ++ r) = some (x, r)) :
    decOpt dec (encOpt enc o ++ r) = some (o, r) := by
  cases o with
  | none => simp [encOpt, decOpt]
  | some x => simp [encOpt, decOpt, h x rfl]

theorem decSeqN_encSeq {dec : Bytes → Option (α × Bytes)} {enc : α → Bytes}
    {l : List α} (r : Bytes)
    (h : ∀ x ∈ l, ∀ s, dec (enc x ++ s) = some (x, s)) :
    decSeqN dec l.length ((l.map enc).flatten ++ r) = some (l, r) := by
  induction l generalizing r with
  | nil => simp [decSeqN]
  | cons x xs ih =>
    simp only [List.map_cons, List.flatten_cons, List.length_cons, decSeqN,
      List.append_assoc, h x (by simp)]
    rw [ih r (fun y hy s => h y (by simp [hy]) s)]
    rfl

theorem decSeq_encSeq {dec : Bytes → Option (α × Bytes)} {enc : α → Bytes}
    {l : List α} (r : Bytes) (hlen : l.length < 65536)
    (h : ∀ x ∈ l, ∀ s, dec (enc x ++ s) = some (x, s)) :
    decSeq dec (encSeq enc l ++ r) = some (l, r) := by
  have h2 : l.length < 256 ^ 2 := hlen
  simp only [encSeq, decSeq, List.append_assoc, decBase_encBase_lt _ h2]
  exact decSeqN_encSeq r h

theorem pow256_eq (k : Nat) : (256 : Nat) ^ k = 2 ^ (8 * k) := by
  rw [show (256 : Nat) = 2 ^ 8 from rfl, ← pow_mul]

theorem lt_pow256 {n m : Nat} (k : Nat) (h : n < 2 ^ m) (e : m = 8 * k) :
    n < 256 ^ k := by
  rw [pow256_eq k, ← e]
  exact h

theorem decAmount_enc {a : AmountExt} (r : Bytes) (h : a.valid = true) :
    decAmount (encAmount a ++ r) = some (a, r) := by
  cases a with
  | Any => rfl
  | Normal n =>
    simp only [AmountExt.valid, decide_eq_true_eq] at h
    simp [encAmount, decAmount, decBase_encBase_lt r (lt_pow256 8 h (by norm_num))]
  | Milli n f =>
    simp only [AmountExt.valid, Bool.and_eq_true, decide_eq_true_eq] at h
    simp [encAmount, decAmount, List.append_assoc,
      decBase_encBase_lt _ (lt_pow256 8 h.1 (by norm_num)),
      decBase_encBase_lt _ (lt_pow256 2 h.2 (by norm_num))]

theorem decRecurrent_enc {x : Recurrent} (r : Bytes) (h : x.valid = true) :
    decRecurrent (encRecurrent x ++ r) = some (x, r) := by
  cases x with
  | NonRecurrent => rfl
  | Seconds n =>
    simp only [Recurrent.valid, decide_eq_true_eq] at h
    simp [encRecurrent, decRecurrent,
      decBase_encBase_lt r (lt_pow256 8 h (by norm_num))]
  | Months n =>
    simp only [Recurrent.valid, decide_eq_true_eq] at h
    simp [encRecurrent, decRecurrent,
      decBase_encBase_lt r (lt_pow256 1 (show n < 2 ^ 8 from h) (by norm_num))]
  | Years n =>
    simp only [Recurrent.valid, decide_eq_true_eq] at h
    simp [encRecurrent, decRecurrent,
      decBase_encBase_lt r (lt_pow256 1 (show n < 2 ^ 8 from h) (by norm_num))]

theorem decQuantity_enc {q : Quantity} (r : Bytes) (h : q.valid = true) :
    decQuantity (encQuantity q ++ r) = some (q, r) := by
  obtain ⟨mn, mx, df⟩ := q
  simp only [Quantity.valid, Bool.and_eq_true, decide_eq_true_eq] at h
  obtain ⟨⟨h1, h2⟩, h3⟩ := h
  have hopt : decOpt (decBase 4) (encOpt (encBase 4) mx ++ (encBase 4 df ++ r))
      = some (mx, encBase 4 df ++ r) := by
    apply decOpt_encOpt
    intro m hm
    subst hm
    simp only [decide_eq_true_eq] at h2
    exact decBase_encBase_lt _ (lt_pow256 4 h2 (by norm_num))
  simp [encQuantity, decQuantity, List.append_assoc,
    decBase_encBase_lt _ (lt_pow256 4 h1 (by norm_num)), hopt,
    decBase_encBase_lt _ (lt_pow256 4 h3 (by norm_num))]

theorem decIso_enc {i : Iso4217} (r : Bytes) :
    decIso (encIso i ++ r) = some (i, r) := rfl

theorem decCurrency_enc {c : CurrencyData} (r : Bytes) (h : c.valid = true) :
    decCurrency (encCurrency c ++ r) = some (c, r) := by
  obtain ⟨iso, coins, fr, pp⟩ := c
  simp only [CurrencyData.valid, bytesValid, Bool.and_eq_true,
    decide_eq_true_eq] at h
  obtain ⟨⟨⟨_, h2⟩, h3⟩, h4, _⟩ := h
  simp [encCurrency, decCurrency, List.append_assoc, decIso_enc,
    decBase_encBase_lt _ (lt_pow256 4 h2 (by norm_num)),
    decBase_encBase_lt _ (lt_pow256 1 (show fr < 2 ^ 8 from h3) (by norm_num)),
    decBytes_encBytes _ h4]

theorem decDetails_enc {d : Details} (r : Bytes) (h : d.valid = true) :
    decDetails (encDetails d ++ r) = some (d, r) := by
  obtain ⟨c, src⟩ := d
  simp only [Details.valid, bytesValid, Bool.and_eq_true, decide_eq_true_eq] at h
  obtain ⟨h1, h2, _⟩ := h
  simp [encDetails, decDetails, List.append_assoc,
    decBase_encBase_lt _ (lt_pow256 32 h1 (by norm_num)),
    decBytes_encBytes _ h2]

theorem decNetwork_enc {n : Network} (r : Bytes) :
    decNetwork (encNetwork n ++ r) = some (n, r) := by
  cases n <;> rfl

theorem decEndpoint_enc {e : ConsignmentEndpoint} (r : Bytes)
    (h : e.valid = true) :
    decEndpoint (encEndpoint e ++ r) = some (e, r) := by
  cases e with
  | Storm b =>
    simp only [ConsignmentEndpoint.valid, bytesValid, Bool.and_eq_true,
      decide_eq_true_eq] at h
    simp [encEndpoint, decEndpoint, decBytes_encBytes r h.1]
  | RgbHttpJsonRpc b =>
    simp only [ConsignmentEndpoint.valid, bytesValid, Bool.and_eq_true,
      decide_eq_true_eq] at h
    simp [encEndpoint, decEndpoint, decBytes_encBytes r h.1]

theorem decBeneficiary_enc {b : Beneficiary} (r : Bytes)
    (h : b.valid = true) :
    decBeneficiary (encBeneficiary b ++ r) = some (b, r) := by
  cases b <;>
    (simp only [Beneficiary.valid, bytesValid, Bool.and_eq_true,
      decide_eq_true_eq] at h
     simp [encBeneficiary, decBeneficiary, decBytes_encBytes r h.1])

theorem decSigPair_enc {s : PublicKey × SchnorrSig} (r : Bytes)
    (h1 : s.1 < 2 ^ 264) (h2 : s.2 < 2 ^ 512) :
    decSigPair (encSigPair s ++ r) = some (s, r) := by
  simp [encSigPair, decSigPair, List.append_assoc,
    decBase_encBase_lt _ (lt_pow256 33 h1 (by omega)),
    decBase_encBase_lt _ (lt_pow256 64 h2 (by omega))]

theorem decI64_enc {t : Int} (r : Bytes) (h1 : -(2 ^ 63) ≤ t)
    (h2 : t < 2 ^ 63) :
    decI64 (encI64 t ++ r) = some (t, r) := by
  by_cases ht : t < 0
  · have hnn : (0 : Int) ≤ t + 2 ^ 64 := by omega
    have hv : ((t + 2 ^ 64).toNat : Int) = t + 2 ^ 64 := Int.toNat_of_nonneg hnn
    have hlt : (t + 2 ^ 64).toNat < 256 ^ 8 := by
      have : ((256 : Nat) ^ 8 : Int) = 2 ^ 64 := by norm_num
      omega
    simp only [encI64, if_pos ht, decI64,
      decBase_encBase_lt r hlt, Option.map_some']
    have hge : ¬ (t + 2 ^ 64).toNat < 2 ^ 63 := by
      have : ((2 : Nat) ^ 63 : Int) = 2 ^ 63 := by norm_num
      omega
    rw [if_neg hge]
    simp only [Option.some.injEq, Prod.mk.injEq, and_true]
    omega
  · have hv : (t.toNat : Int) = t := Int.toNat_of_nonneg (by omega)
    have hlt : t.toNat < 256 ^ 8 := by
      have : ((256 : Nat) ^ 8 : Int) = 2 ^ 64 := by norm_num
      omega
    simp only [encI64, if_neg ht, decI64,
      decBase_encBase_lt r hlt, Option.map_some']
    have hsm : t.toNat < 2 ^ 63 := by
      have : ((2 : Nat) ^ 63 : Int) = 2 ^ 63 := by norm_num
      omega
    rw [if_pos hsm]
    simp only [Option.some.injEq, Prod.mk.injEq, and_true]
    omega

theorem decRecordsGo_enc {rs : TlvStream} (fuel : Nat)
    (hf : (encodeRecords rs).length ≤ fuel)
    (hlen : ∀ r ∈ rs, r.2.length < 65536) :
    decRecordsGo fuel (encodeRecords rs) = some rs := by
  induction rs generalizing fuel with
  | nil => cases fuel <;> rfl
  | cons hd tl ih =>
    obtain ⟨t, p⟩ := hd
    have hsh : encodeRecords ((t, p) :: tl) =
        t :: (encBase 2 p.length ++ (p ++ encodeRecords tl)) := by
      simp [encodeRecords]
    have hple : p.length < 65536 := hlen (t, p) (by simp)
    have hlen2 : (encodeRecords ((t, p) :: tl)).length =
        3 + p.length + (encodeRecords tl).length := by
      simp [hsh, encBase_length]
      omega
    rw [hsh] at hf ⊢
    rw [hsh] at hlen2
    cases fuel with
    | zero => simp at hf
    | succ f =>
      simp only [decRecordsGo,
        decBase_encBase_lt _ (show p.length < 256 ^ 2 from hple)]
      rw [if_pos (by simp)]
      rw [List.take_left, List.drop_left]
      rw [ih f (by simp [encBase_length] at hf hlen2 ⊢; omega)
        (fun r hr => hlen r (by simp [hr]))]
      rfl

theorem decodeRecords_enc {rs : TlvStream}
    (hlen : ∀ r ∈ rs, r.2.length < 65536) :
    decodeRecords (encodeRecords rs) = some rs :=
  decRecordsGo_enc _ le_rfl hlen

theorem runFull_of_dec {dec : Bytes → Option (α × Bytes)} {p : Bytes}
    {x : α} (h : dec (p ++ []) = some (x, [])) :
    runFull dec p = some x := by
  rw [List.append_nil] at h
  simp [runFull, h]

theorem applyRecords_unknown (v : Invoice) (rs : TlvStream)
    (h : ∀ r ∈ rs, 0x0b < r.1) :
    v.applyRecords rs = some { v with unknown := v.unknown ++ rs } := by
  induction rs generalizing v with
  | nil => simp [Invoice.applyRecords]
  | cons r rs ih =>
    have h1 : 0x0b < r.1 := h r (by simp)
    simp only [Invoice.applyRecords, Invoice.applyRecord,
      if_neg (show ¬ r.1 = 0x00 by omega), if_neg (show ¬ r.1 = 0x01 by omega),
      if_neg (show ¬ r.1 = 0x02 by omega), if_neg (show ¬ r.1 = 0x03 by omega),
      if_neg (show ¬ r.1 = 0x04 by omega), if_neg (show ¬ r.1 = 0x05 by omega),
      if_neg (show ¬ r.1 = 0x06 by omega), if_neg (show ¬ r.1 = 0x07 by omega),
      if_neg (show ¬ r.1 = 0x08 by omega), if_neg (show ¬ r.1 = 0x09 by omega),
      if_neg (show ¬ r.1 = 0x0a by omega), if_neg (show ¬ r.1 = 0x0b by omega)]
    rw [ih _ (fun x hx => h x (by simp [hx]))]
    simp

theorem applyStep_sig (v : Invoice) (o : Option (PublicKey × SchnorrSig))
    (rest : TlvStream) (hv : v.signature = none)
    (ho : ∀ s, o = some s → s.1 < 2 ^ 264 ∧ s.2 < 2 ^ 512) :
    v.applyRecords (optRecord 0x00 encSigPair o ++ rest) =
      Invoice.applyRecords { v with signature := o } rest := by
  cases o with
  | none =>
    have he : ({ v with signature := none } : Invoice) = v := by
      cases v
      simp_all
    rw [he]
    simp [optRecord]
  | some s =>
    obtain ⟨h1, h2⟩ := ho s rfl
    have hr : runFull decSigPair (encSigPair s) = some s :=
      runFull_of_dec (decSigPair_enc [] h1 h2)
    simp [optRecord, Invoice.applyRecords, Invoice.applyRecord, hr]

theorem applyStep_alts (v : Invoice) (l : List Beneficiary)
    (rest : TlvStream) (hv : v.alt_beneficiaries = [])
    (hlen : l.length < 65536) (hl : ∀ b ∈ l, b.valid = true) :
    v.applyRecords (vecRecord 0x01 encBeneficiary l ++ rest) =
      Invoice.applyRecords { v with alt_beneficiaries := l } rest := by
  cases l with
  | nil =>
    have he : ({ v with alt_beneficiaries := [] } : Invoice) = v := by
      cases v
      simp_all
    rw [he]
    simp [vecRecord]
  | cons b bs =>
    have hr : runFull (decSeq decBeneficiary) (encSeq encBeneficiary (b :: bs))
        = some (b :: bs) :=
      runFull_of_dec
        (decSeq_encSeq [] hlen (fun x hx s => decBeneficiary_enc s (hl x hx)))
    simp [vecRecord, Invoice.applyRecords, Invoice.applyRecord, hr]

theorem applyStep_asset (v : Invoice) (o : Option AssetId)
    (rest : TlvStream) (hv : v.asset = none)
    (ho : ∀ a, o = some a → a < 2 ^ 256) :
    v.applyRecords (optRecord 0x02 (encBase 32) o ++ rest) =
      Invoice.applyRecords { v with asset := o } rest := by
  cases o with
  | none =>
    have he : ({ v with asset := none } : Invoice) = v := by
      cases v
      simp_all
    rw [he]
    simp [optRecord]
  | some a =>
    have hr : runFull (decBase 32) (encBase 32 a) = some a :=
      runFull_of_dec
        (by rw [decBase_encBase_lt [] (lt_pow256 32 (ho a rfl) (by omega))])
    simp [optRecord, Invoice.applyRecords, Invoice.applyRecord, hr]

theorem applyStep_expiry (v : Invoice) (o : Option Int)
    (rest : TlvStream) (hv : v.expiry = none)
    (ho : ∀ t, o = some t → -(2 ^ 63) ≤ t ∧ t < 2 ^ 63) :
    v.applyRecords (optRecord 0x03 encI64 o ++ rest) =
      Invoice.applyRecords { v with expiry := o } rest := by
  cases o with
  | none =>
    have he : ({ v with expiry := none } : Invoice) = v := by
      cases v
      simp_all
    rw [he]
    simp [optRecord]
  | some t =>
    obtain ⟨h1, h2⟩ := ho t rfl
    have hr : runFull decI64 (encI64 t) = some t :=
      runFull_of_dec (decI64_enc [] h1 h2)
    simp [optRecord, Invoice.applyRecords, Invoice.applyRecord, hr]

theorem applyStep_rec (v : Invoice) (x : Recurrent)
    (rest : TlvStream) (hv : v.recurrent = Recurrent.NonRecurrent)
    (hx : x.valid = true) :
    v.applyRecords (recRecord x ++ rest) =
      Invoice.applyRecords { v with recurrent := x } rest := by
  by_cases hnr : x = Recurrent.NonRecurrent
  · subst hnr
    have he : ({ v with recurrent := Recurrent.NonRecurrent } : Invoice) = v := by
      cases v
      simp_all
    rw [he]
    simp [recRecord]
  · have hr : runFull decRecurrent (encRecurrent x) = some x :=
      runFull_of_dec (decRecurrent_enc [] hx)
    simp [recRecord, hnr, Invoice.applyRecords, Invoice.applyRecord, hr]

theorem applyStep_merchant (v : Invoice) (o : Option Bytes)
    (rest : TlvStream) (hv : v.merchant = none)
    (ho : ∀ m, o = some m → m.length < 65536) :
    v.applyRecords (optRecord 0x05 encBytes o ++ rest) =
      Invoice.applyRecords { v with merchant := o } rest := by
  cases o with
  | none =>
    have he : ({ v with merchant := none } : Invoice) = v := by
      cases v
      simp_all
    rw [he]
    simp [optRecord]
  | some m =>
    have hr : runFull decBytes (encBytes m) = some m :=
      runFull_of_dec (decBytes_encBytes [] (ho m rfl))
    simp [optRecord, Invoice.applyRecords, Invoice.applyRecord, hr]

theorem applyStep_quantity (v : Invoice) (o : Option Quantity)
    (rest : TlvStream) (hv : v.quantity = none)
    (ho : ∀ q, o = some q → q.valid = true) :
    v.applyRecords (optRecord 0x06 encQuantity o ++ rest) =
      Invoice.applyRecords { v with quantity := o } rest := by
  cases o with
  | none =>
    have he : ({ v with quantity := none } : Invoice) = v := by
      cases v
      simp_all
    rw [he]
    simp [optRecord]
  | some q =>
    have hr : runFull decQuantity (encQuantity q) = some q :=
      runFull_of_dec (decQuantity_enc [] (ho q rfl))
    simp [optRecord, Invoice.applyRecords, Invoice.applyRecord, hr]

theorem applyStep_purpose (v : Invoice) (o : Option Bytes)
    (rest : TlvStream) (hv : v.purpose = none)
    (ho : ∀ p, o = some p → p.length < 65536) :
    v.applyRecords (optRecord 0x07 encBytes o ++ rest) =
      Invoice.applyRecords { v with purpose := o } rest := by
  cases o with
  | none =>
    have he : ({ v with purpose := none } : Invoice) = v := by
      cases v
      simp_all
    rw [he]
    simp [optRecord]
  | some p =>
    have hr : runFull decBytes (encBytes p) = some p :=
      runFull_of_dec (decBytes_encBytes [] (ho p rfl))
    simp [optRecord, Invoice.applyRecords, Invoice.applyRecord, hr]

theorem applyStep_currency (v : Invoice) (o : Option CurrencyData)
    (rest : TlvStream) (hv : v.currency_requirement = none)
    (ho : ∀ c, o = some c → c.valid = true) :
    v.applyRecords (optRecord 0x08 encCurrency o ++ rest) =
      Invoice.applyRecords { v with currency_requirement := o } rest := by
  cases o with
  | none =>
    have he : ({ v with currency_requirement := none } : Invoice) = v := by
      cases v
      simp_all
    rw [he]
    simp [optRecord]
  | some c =>
    have hr : runFull decCurrency (encCurrency c) = some c :=
      runFull_of_dec (decCurrency_enc [] (ho c rfl))
    simp [optRecord, Invoice.applyRecords, Invoice.applyRecord, hr]

theorem applyStep_details (v : Invoice) (o : Option Details)
    (rest : TlvStream) (hv : v.details = none)
    (ho : ∀ d, o = some d → d.valid = true) :
    v.applyRecords (optRecord 0x09 encDetails o ++ rest) =
      Invoice.applyRecords { v with details := o } rest := by
  cases o with
  | none =>
    have he : ({ v with details := none } : Invoice) = v := by
      cases v
      simp_all
    rw [he]
    simp [optRecord]
  | some d =>
    have hr : runFull decDetails (encDetails d) = some d :=
      runFull_of_dec (decDetails_enc [] (ho d rfl))
    simp [optRecord, Invoice.applyRecords, Invoice.applyRecord, hr]

theorem applyStep_endpoints (v : Invoice) (l : List ConsignmentEndpoint)
    (rest : TlvStream) (hv : v.consignment_endpoints = [])
    (hlen : l.length < 65536) (hl : ∀ e ∈ l, e.valid = true) :
    v.applyRecords (vecRecord 0x0a encEndpoint l ++ rest) =
      Invoice.applyRecords { v with consignment_endpoints := l } rest := by
  cases l with
  | nil =>
    have he : ({ v with consignment_endpoints := [] } : Invoice) = v := by
      cases v
      simp_all
    rw [he]
    simp [vecRecord]
  | cons e es =>
    have hr : runFull (decSeq decEndpoint) (encSeq encEndpoint (e :: es))
        = some (e :: es) :=
      runFull_of_dec
        (decSeq_encSeq [] hlen (fun x hx s => decEndpoint_enc s (hl x hx)))
    simp [vecRecord, Invoice.applyRecords, Invoice.applyRecord, hr]

theorem applyStep_network (v : Invoice) (o : Option Network)
    (rest : TlvStream) (hv : v.network = none) :
    v.applyRecords (optRecord 0x0b encNetwork o ++ rest) =
      Invoice.applyRecords { v with network := o } rest := by
  cases o with
  | none =>
    have he : ({ v with network := none } : Invoice) = v := by
      cases v
      simp_all
    rw [he]
    simp [optRecord]
  | some n =>
    have hr : runFull decNetwork (encNetwork n) = some n :=
      runFull_of_dec (decNetwork_enc [])
    simp [optRecord, Invoice.applyRecords, Invoice.applyRecord, hr]

theorem decode_encode {v : Invoice} (hv : v.valid = true) :
    Invoice.decode v.encode = some v := by
  obtain ⟨ver, amt, ben, alts, asset, expiry, rec, qty, cur, mer, pur, det,
    sig, eps, net, unk⟩ := v
  simp only [Invoice.valid, Bool.and_eq_true, decide_eq_true_eq,
    List.all_eq_true] at hv
  obtain ⟨⟨⟨⟨⟨⟨⟨⟨⟨⟨⟨⟨⟨⟨⟨⟨⟨h1, h2⟩, h3⟩, h4⟩, h5⟩, h6⟩, h7⟩, h8⟩, h9⟩, h10⟩,
    h11⟩, h12⟩, h13⟩, h14⟩, h15⟩, h16⟩, h17⟩, h18⟩ := hv
  simp only [Invoice.encode, Invoice.decode, List.append_assoc,
    decBase_encBase_lt, decAmount_enc, decBeneficiary_enc,
    pow_one, h1, h2, h3]
  rw [decodeRecords_enc h18]
  simp only [Invoice.tlvRecords, List.append_assoc]
  rw [applyStep_sig _ _ _ rfl (fun s hs => by rw [hs] at h14; simpa using h14)]
  rw [applyStep_alts _ _ _ rfl h4 h5]
  rw [applyStep_asset _ _ _ rfl
    (fun a ha => by rw [ha] at h6; simpa using h6)]
  rw [applyStep_expiry _ _ _ rfl
    (fun t htt => by rw [htt] at h7; simpa using h7)]
  rw [applyStep_rec _ _ _ rfl h8]
  rw [applyStep_merchant _ _ _ rfl (fun m hm => by
    rw [hm] at h11
    simp only [bytesValid, Bool.and_eq_true, decide_eq_true_eq] at h11
    exact h11.1)]
  rw [applyStep_quantity _ _ _ rfl
    (fun q hq => by rw [hq] at h9; simpa using h9)]
  rw [applyStep_purpose _ _ _ rfl (fun p hp => by
    rw [hp] at h12
    simp only [bytesValid, Bool.and_eq_true, decide_eq_true_eq] at h12
    exact h12.1)]
  rw [applyStep_currency _ _ _ rfl
    (fun c hc => by rw [hc] at h10; simpa using h10)]
  rw [applyStep_details _ _ _ rfl
    (fun d hd => by rw [hd] at h13; simpa using h13)]
  rw [applyStep_endpoints _ _ _ rfl h15 h16]
  rw [applyStep_network _ _ _ rfl]
  rw [applyRecords_unknown _ _ (fun r hr => (h17 r hr).1.1)]
  rfl

theorem encBytes_mem_lt {b : Bytes} (hb : ∀ y ∈ b, y < 256) :
    ∀ x ∈ encBytes b, x < 256 := by
  intro x hx
  rcases List.mem_append.1 hx with h | h
  · exact encBase_mem_lt _ _ x h
  · exact hb x h

theorem encAmount_mem_lt (a : AmountExt) : ∀ x ∈ encAmount a, x < 256 := by
  cases a with
  | Any =>
    intro x hx
    simp [encAmount] at hx
    omega
  | Normal n =>
    intro x hx
    simp [encAmount] at hx
    rcases hx with h | h
    · omega
    · exact encBase_mem_lt _ _ x h
  | Milli n f =>
    intro x hx
    simp [encAmount] at hx
    rcases hx with h | h | h
    · omega
    · exact encBase_mem_lt _ _ x h
    · exact encBase_mem_lt _ _ x h

theorem encRecurrent_mem_lt (a : Recurrent) : ∀ x ∈ encRecurrent a, x < 256 := by
  cases a with
  | NonRecurrent =>
    intro x hx
    simp [encRecurrent] at hx
    omega
  | Seconds n =>
    intro x hx
    simp [encRecurrent] at hx
    rcases hx with h | h
    · omega
    · exact encBase_mem_lt _ _ x h
  | Months n =>
    intro x hx
    simp [encRecurrent] at hx
    rcases hx with h | h
    · omega
    · exact encBase_mem_lt _ _ x h
  | Years n =>
    intro x hx
    simp [encRecurrent] at hx
    rcases hx with h | h
    · omega
    · exact encBase_mem_lt _ _ x h

theorem encOpt_base_mem_lt (k : Nat) (o : Option Nat) :
    ∀ x ∈ encOpt (encBase k) o, x < 256 := by
  cases o with
  | none =>
    intro x hx
    simp [encOpt] at hx
    omega
  | some m =>
    intro x hx
    simp [encOpt] at hx
    rcases hx with h | h
    · omega
    · exact encBase_mem_lt _ _ x h

theorem encQuantity_mem_lt (q : Quantity) : ∀ x ∈ encQuantity q, x < 256 := by
  intro x hx
  simp only [encQuantity, List.append_assoc, List.mem_append] at hx
  rcases hx with h | h | h
  · exact encBase_mem_lt _ _ x h
  · exact encOpt_base_mem_lt 4 q.max x h
  · exact encBase_mem_lt _ _ x h

theorem encCurrency_mem_lt {c : CurrencyData} (hc : c.valid = true) :
    ∀ x ∈ encCurrency c, x < 256 := by
  simp only [CurrencyData.valid, Iso4217.valid, bytesValid, Bool.and_eq_true,
    decide_eq_true_eq, List.all_eq_true] at hc
  obtain ⟨⟨⟨⟨⟨hb0, hb1⟩, hb2⟩, hco⟩, hfr⟩, hlen, hall⟩ := hc
  intro x hx
  rcases List.mem_append.1 hx with h | h
  · rcases List.mem_append.1 h with h2 | h2
    · rcases List.mem_append.1 h2 with h3 | h3
      · simp only [encIso, List.mem_cons, List.not_mem_nil, or_false] at h3
        rcases h3 with rfl | rfl | rfl
        · exact hb0
        · exact hb1
        · exact hb2
      · exact encBase_mem_lt _ _ x h3
    · exact encBase_mem_lt _ _ x h2
  · exact encBytes_mem_lt (fun y hy => hall y hy) x h

theorem encDetails_mem_lt {d : Details} (hd : d.valid = true) :
    ∀ x ∈ encDetails d, x < 256 := by
  simp only [Details.valid, bytesValid, Bool.and_eq_true, decide_eq_true_eq,
    List.all_eq_true] at hd
  obtain ⟨_, _, hsrc⟩ := hd
  intro x hx
  simp only [encDetails, List.mem_append] at hx
  rcases hx with h | h
  · exact encBase_mem_lt _ _ x h
  · exact encBytes_mem_lt (fun y hy => hsrc y hy) x h

theorem encNetwork_mem_lt (n : Network) : ∀ x ∈ encNetwork n, x < 256 := by
  cases n <;> (intro x hx; simp [encNetwork] at hx; omega)

theorem encEndpoint_mem_lt {e : ConsignmentEndpoint} (he : e.valid = true) :
    ∀ x ∈ encEndpoint e, x < 256 := by
  cases e with
  | Storm b =>
    simp only [ConsignmentEndpoint.valid, bytesValid, Bool.and_eq_true,
      decide_eq_true_eq, List.all_eq_true] at he
    intro x hx
    simp only [encEndpoint, List.mem_cons] at hx
    rcases hx with h | h
    · omega
    · exact encBytes_mem_lt (fun y hy => he.2 y hy) x h
  | RgbHttpJsonRpc b =>
    simp only [ConsignmentEndpoint.valid, bytesValid, Bool.and_eq_true,
      decide_eq_true_eq, List.all_eq_true] at he
    intro x hx
    simp only [encEndpoint, List.mem_cons] at hx
    rcases hx with h | h
    · omega
    · exact encBytes_mem_lt (fun y hy => he.2 y hy) x h

theorem encBeneficiary_mem_lt {b : Beneficiary} (hb : b.valid = true) :
    ∀ x ∈ encBeneficiary b, x < 256 := by
  cases b <;>
    (simp only [Beneficiary.valid, bytesValid, Bool.and_eq_true,
      decide_eq_true_eq, List.all_eq_true] at hb
     intro x hx
     simp only [encBeneficiary, List.mem_cons] at hx
     rcases hx with h | h
     · omega
     · exact encBytes_mem_lt (fun y hy => hb.2 y hy) x h)

theorem encSigPair_mem_lt (s : PublicKey × SchnorrSig) :
    ∀ x ∈ encSigPair s, x < 256 := by
  intro x hx
  simp only [encSigPair, List.mem_append] at hx
  rcases hx with h | h
  · exact encBase_mem_lt _ _ x h
  · exact encBase_mem_lt _ _ x h

theorem encI64_mem_lt (t : Int) : ∀ x ∈ encI64 t, x < 256 := by
  intro x hx
  exact encBase_mem_lt _ _ x hx

theorem encSeq_mem_lt {enc : α → Bytes} {l : List α}
    (h : ∀ y ∈ l, ∀ x ∈ enc y, x < 256) :
    ∀ x ∈ encSeq enc l, x < 256 := by
  intro x hx
  simp only [encSeq, List.mem_append] at hx
  rcases hx with hh | hh
  · exact encBase_mem_lt _ _ x hh
  · rw [List.mem_flatten] at hh
    obtain ⟨sub, hsub, hxs⟩ := hh
    rw [List.mem_map] at hsub
    obtain ⟨y, hy, rfl⟩ := hsub
    exact h y hy x hxs

theorem mem_optRecord {tag : Nat} {enc : α → Bytes} {o : Option α}
    {r : Nat × Bytes} (hr : r ∈ optRecord tag enc o) :
    ∃ x, o = some x ∧ r = (tag, enc x) := by
  cases o with
  | none => simp [optRecord] at hr
  | some x =>
    simp only [optRecord, List.mem_cons, List.not_mem_nil, or_false] at hr
    exact ⟨x, rfl, hr⟩

theorem mem_vecRecord {tag : Nat} {enc : α → Bytes} {l : List α}
    {r : Nat × Bytes} (hr : r ∈ vecRecord tag enc l) :
    r = (tag, encSeq enc l) := by
  by_cases hl : l.isEmpty
  · simp [vecRecord, hl] at hr
  · simp only [vecRecord, if_neg hl, List.mem_cons, List.not_mem_nil,
      or_false] at hr
    exact hr

theorem mem_recRecord {x : Recurrent} {r : Nat × Bytes}
    (hr : r ∈ recRecord x) : r = (0x04, encRecurrent x) := by
  by_cases hx : x = Recurrent.NonRecurrent
  · simp [recRecord, hx] at hr
  · simp only [recRecord, if_neg hx, List.mem_cons, List.not_mem_nil,
      or_false] at hr
    exact hr

theorem tlvRecords_mem_bytes {v : Invoice} (hv : v.valid = true) :
    ∀ r ∈ v.tlvRecords, r.1 < 256 ∧ ∀ y ∈ r.2, y < 256 := by
  obtain ⟨ver, amt, ben, alts, asset, expiry, rec, qty, cur, mer, pur, det,
    sig, eps, net, unk⟩ := v
  simp only [Invoice.valid, Bool.and_eq_true, decide_eq_true_eq,
    List.all_eq_true] at hv
  obtain ⟨⟨⟨⟨⟨⟨⟨⟨⟨⟨⟨⟨⟨⟨⟨⟨⟨h1, h2⟩, h3⟩, h4⟩, h5⟩, h6⟩, h7⟩, h8⟩, h9⟩, h10⟩,
    h11⟩, h12⟩, h13⟩, h14⟩, h15⟩, h16⟩, h17⟩, h18⟩ := hv
  intro r hr
  simp only [Invoice.tlvRecords, List.append_assoc, List.mem_append] at hr
  rcases hr with h | h | h | h | h | h | h | h | h | h | h | h | h
  · obtain ⟨s, hs, rfl⟩ := mem_optRecord h
    rw [hs] at h14
    exact ⟨by omega, encSigPair_mem_lt s⟩
  · obtain rfl := mem_vecRecord h
    exact ⟨by omega, encSeq_mem_lt (fun y hy => encBeneficiary_mem_lt (h5 y hy))⟩
  · obtain ⟨a, ha, rfl⟩ := mem_optRecord h
    exact ⟨by omega, fun y hy => encBase_mem_lt _ _ y hy⟩
  · obtain ⟨t, ht, rfl⟩ := mem_optRecord h
    exact ⟨by omega, encI64_mem_lt t⟩
  · obtain rfl := mem_recRecord h
    exact ⟨by omega, encRecurrent_mem_lt rec⟩
  · obtain ⟨m, hm, rfl⟩ := mem_optRecord h
    rw [hm] at h11
    simp only [bytesValid, Bool.and_eq_true, decide_eq_true_eq,
      List.all_eq_true] at h11
    exact ⟨by omega, encBytes_mem_lt (fun y hy => h11.2 y hy)⟩
  · obtain ⟨q, hq, rfl⟩ := mem_optRecord h
    exact ⟨by omega, encQuantity_mem_lt q⟩
  · obtain ⟨p, hp, rfl⟩ := mem_optRecord h
    rw [hp] at h12
    simp only [bytesValid, Bool.and_eq_true, decide_eq_true_eq,
      List.all_eq_true] at h12
    exact ⟨by omega, encBytes_mem_lt (fun y hy => h12.2 y hy)⟩
  · obtain ⟨c, hc, rfl⟩ := mem_optRecord h
    rw [hc] at h10
    exact ⟨by omega, encCurrency_mem_lt (by simpa using h10)⟩
  · obtain ⟨d, hd, rfl⟩ := mem_optRecord h
    rw [hd] at h13
    exact ⟨by omega, encDetails_mem_lt (by simpa using h13)⟩
  · obtain rfl := mem_vecRecord h
    exact ⟨by omega, encSeq_mem_lt (fun y hy => encEndpoint_mem_lt (h16 y hy))⟩
  · obtain ⟨n, hn, rfl⟩ := mem_optRecord h
    exact ⟨by omega, encNetwork_mem_lt n⟩
  · obtain ⟨⟨_, ht256⟩, hby⟩ := h17 r h
    refine ⟨ht256, ?_⟩
    simp only [bytesValid, Bool.and_eq_true, decide_eq_true_eq,
      List.all_eq_true] at hby
    exact fun y hy => hby.2 y hy

theorem encodeRecords_mem_lt {rs : TlvStream}
    (h : ∀ r ∈ rs, r.1 < 256 ∧ ∀ y ∈ r.2, y < 256) :
    ∀ x ∈ encodeRecords rs, x < 256 := by
  intro x hx
  simp only [encodeRecords, List.mem_flatten] at hx
  obtain ⟨sub, hsub, hxs⟩ := hx
  rw [List.mem_map] at hsub
  obtain ⟨r, hr, rfl⟩ := hsub
  simp only [List.mem_cons, List.mem_append] at hxs
  rcases hxs with hh | hh | hh
  · have := (h r hr).1
    omega
  · exact encBase_mem_lt _ _ x hh
  · exact (h r hr).2 x hh

theorem encode_mem_lt {v : Invoice} (hv : v.valid = true) :
    ∀ x ∈ v.encode, x < 256 := by
  intro x hx
  simp only [Invoice.encode, List.append_assoc, List.mem_append] at hx
  rcases hx with h | h | h | h
  · exact encBase_mem_lt _ _ x h
  · exact encAmount_mem_lt _ x h
  · refine encBeneficiary_mem_lt ?_ x h
    simp only [Invoice.valid, Bool.and_eq_true] at hv
    exact hv.1.1.1.1.1.1.1.1.1.1.1.1.1.1.1.2
  · exact encodeRecords_mem_lt (tlvRecords_mem_bytes hv) x h

theorem charIdx_getD : ∀ i, i < 32 → charIdx (charset.getD i 'q') = some i := by
  decide

theorem checksum_lt (bs : Bytes) : checksum bs < 1024 := by
  suffices h : ∀ a, a < 1024 → List.foldl (fun a b => (a + b) % 1024) a bs < 1024 by
    exact h 0 (by omega)
  induction bs with
  | nil => intro a ha; exact ha
  | cons b r ih =>
    intro a _
    exact ih ((a + b) % 1024) (Nat.mod_lt _ (by omega))

theorem charsToVals_append {bs : Bytes} (hb : ∀ x ∈ bs, x < 256)
    (tail : List Char) :
    charsToVals (bytesToChars bs ++ tail) =
      (charsToVals tail).map (fun l => bs ++ l) := by
  induction bs with
  | nil =>
    simp [bytesToChars]
  | cons b r ih =>
    have hb256 : b < 256 := hb b (by simp)
    have h1 : b / 32 % 8 < 32 := by omega
    have h2 : b % 32 < 32 := by omega
    simp only [bytesToChars, List.cons_append, charsToVals,
      charIdx_getD _ h1, charIdx_getD _ h2, List.append_eq]
    rw [ih (fun x hx => hb x (by simp [hx]))]
    have hrecon : 32 * (b / 32 % 8) + b % 32 = b := by omega
    cases charsToVals tail <;> simp [hrecon]

theorem charsToVals_pair {c : Nat} (hc : c < 1024) :
    charsToVals (pairChars c) = some [c] := by
  have h1 : c / 32 % 32 < 32 := by omega
  have h2 : c % 32 < 32 := by omega
  simp only [pairChars, charsToVals, charIdx_getD _ h1, charIdx_getD _ h2]
  have hrecon : 32 * (c / 32 % 32) + c % 32 = c := by omega
  simp [hrecon]

theorem parseText_toText {v : Invoice} (hv : v.valid = true) :
    Invoice.parseText v.toText = some v := by
  have hb : ∀ x ∈ v.encode, x < 256 := encode_mem_lt hv
  have hcs : checksum v.encode < 1024 := checksum_lt _
  simp only [Invoice.toText, Invoice.parseText]
  rw [charsToVals_append hb, charsToVals_pair hcs]
  simp only [Option.map_some']
  rw [List.reverse_append]
  simp only [List.reverse_cons, List.reverse_nil, List.nil_append,
    List.singleton_append, List.reverse_reverse]
  simp only [if_true]
  exact decode_encode hv

theorem charsCmp_lt : ∀ (a b : List Char),
    (charsCmp a b = Ordering.lt ↔ List.lt a b)
  | [], [] => by
    constructor
    · intro h
      exact absurd h (by decide)
    · intro h
      cases h
  | [], b :: bs => by
    simp only [charsCmp, true_iff]
    exact List.lt.nil b bs
  | a :: as, [] => by
    constructor
    · intro h
      simp [charsCmp] at h
    · intro h
      cases h
  | a :: as, b :: bs => by
    by_cases hab : a < b
    · simp only [charsCmp, if_pos hab, true_iff]
      exact List.lt.head as bs hab
    · by_cases hba : b < a
      · simp only [charsCmp, if_neg hab, if_pos hba]
        constructor
        · intro h
          exact absurd h (by decide)
        · intro h
          cases h with
          | head _ _ h1 => exact absurd h1 hab
          | tail h1 h2 h3 => exact absurd hba h2
      · simp only [charsCmp, if_neg hab, if_neg hba]
        rw [charsCmp_lt as bs]
        constructor
        · intro h
          exact List.lt.tail hab hba h
        · intro h
          cases h with
          | head _ _ h1 => exact absurd h1 hab
          | tail _ _ h3 => exact h3

theorem mem_dropWhile_of_not {p : α → Bool} {x : α} {l : List α}
    (hx : x ∈ l) (hp : p x = false) : x ∈ l.dropWhile p := by
  have hsplit : l.takeWhile p ++ l.dropWhile p = l :=
    List.takeWhile_append_dropWhile p l
  rw [← hsplit] at hx
  rcases List.mem_append.1 hx with h | h
  · have := List.mem_takeWhile_imp h
    rw [hp] at this
    cases this
  · exact h

theorem mem_trimChars {x : Char} {l : List Char} (hx : x ∈ l)
    (hp : isWS x = false) : x ∈ trimChars l := by
  unfold trimChars
  rw [List.mem_reverse]
  apply mem_dropWhile_of_not _ hp
  rw [List.mem_reverse]
  exact mem_dropWhile_of_not hx hp

theorem splitDot_assemble : ∀ {l : List Char} {g : List Char}
    {gs : List (List Char)}, splitDot l = g :: gs → gs ≠ [] →
    ∃ t, l = g ++ '.' :: t ∧ splitDot t = gs := by
  intro l
  induction l with
  | nil =>
    intro g gs h hne
    simp only [splitDot] at h
    cases h
    exact absurd rfl hne
  | cons c cs ih =>
    intro g gs h hne
    by_cases hc : c = '.'
    · subst hc
      simp only [splitDot, if_pos rfl] at h
      cases h
      exact ⟨cs, rfl, rfl⟩
    · simp only [splitDot, if_neg hc] at h
      cases hsp : splitDot cs with
      | nil => rw [hsp] at h; cases h; exact absurd rfl hne
      | cons g2 gs2 =>
        rw [hsp] at h
        cases h
        obtain ⟨t, ht1, ht2⟩ := ih hsp hne
        exact ⟨t, by rw [ht1]; rfl, ht2⟩

theorem any_data_of_milli {s : String} {c0 c1 : List Char}
    {rest : List (List Char)} (h : splitDot s.data = c0 :: c1 :: rest) :
    (trimChars s.data).map lowerChar ≠ "any".data := by
  obtain ⟨t, ht, _⟩ := splitDot_assemble h (by simp)
  have hdot : '.' ∈ s.data := by
    rw [ht]
    simp
  have hmem : '.' ∈ (trimChars s.data).map lowerChar := by
    have h1 : '.' ∈ trimChars s.data := mem_trimChars hdot (by decide)
    have h2 : lowerChar '.' = '.' := by decide
    rw [← h2]
    exact List.mem_map_of_mem lowerChar h1
  intro he
  rw [he] at hmem
  exact absurd hmem (by decide)

theorem nthYield_eq (vv : Invoice) : ∀ (k i : Nat),
    BeneficiariesIter.nthYield ⟨vv, i⟩ k =
      (vv.beneficiary :: vv.alt_beneficiaries).get? (i + k)
  | 0, i => by
    cases i with
    | zero => simp [BeneficiariesIter.nthYield, BeneficiariesIter.next]
    | succ j =>
      simp only [BeneficiariesIter.nthYield, BeneficiariesIter.next]
      rw [if_neg (by omega), show j + 1 + 1 - 2 = j from by omega]
      simp
  | k + 1, i => by
    simp only [BeneficiariesIter.nthYield, BeneficiariesIter.next]
    rw [nthYield_eq vv k (i + 1)]
    congr 1
    omega

/-- C1: the spec says every field of the signed payload clears the
signature when mutated, including network and consignment endpoints; the
code leaves the signature in place for exactly those two mutators while
changing the canonical (signed) encoding, contradicting the source's own
comment that every field update must clear the signature. Contrast with
`set_amount`, which does clear it. -/
theorem C1_network_mutators_keep_signature :
    ((signedFix.set_network Network.Mainnet).2 = true ∧
      (signedFix.set_network Network.Mainnet).1.network = some Network.Mainnet ∧
      (signedFix.set_network Network.Mainnet).1.signature = some (1, 2) ∧
      (signedFix.set_network Network.Mainnet).1.encode ≠ signedFix.encode) ∧
    ((signedFix.add_consignment_endpoint
        (ConsignmentEndpoint.Storm [2])).2 = true ∧
      (signedFix.add_consignment_endpoint
        (ConsignmentEndpoint.Storm [2])).1.signature = some (1, 2) ∧
      (signedFix.add_consignment_endpoint
        (ConsignmentEndpoint.Storm [2])).1.encode ≠ signedFix.encode) ∧
    (signedFix.set_amount AmountExt.Any).1.signature = none := by
  decide

/-- C2 counterexample: for a concrete invoice with a signature set, the
digest taken by `signature_hash` is over bytes that still contain the
signature record, so it differs from the digest of the signature-cleared
canonical encoding, contrary to the claim. -/
theorem C2_signature_hash_counterexample :
    signedFix.signature_hash ≠ merkleHash signedFix.remove_signature.encode := by
  decide

/-- C2 amended: `signature_hash` digests the canonical encoding of the
invoice as it currently is (signature included when present); it
coincides with the digest of the signature-cleared encoding exactly when
no signature is set. -/
theorem C2_signature_hash_amended (v : Invoice) :
    v.signature_hash = merkleHash v.encode ∧
    (v.signature = none →
      v.signature_hash = merkleHash v.remove_signature.encode) := by
  refine ⟨rfl, fun h => ?_⟩
  have he : v.remove_signature = v := by
    cases v
    simp_all [Invoice.remove_signature]
  rw [he]
  rfl

/-- C2 witness: the amended statement applied to a concrete unsigned
invoice. -/
theorem C2_signature_hash_witness :
    unsignedFix.signature = none ∧
    unsignedFix.signature_hash = merkleHash unsignedFix.remove_signature.encode :=
  ⟨by decide, (C2_signature_hash_amended unsignedFix).2 (by decide)⟩

/-- C3: for every valid invoice, decoding the canonical binary encoding
returns the invoice, and parsing the canonical text encoding returns the
invoice. -/
theorem C3_round_trip (v : Invoice) (hv : v.valid = true) :
    Invoice.decode v.encode = some v ∧ Invoice.parseText v.toText = some v :=
  ⟨decode_encode hv, parseText_toText hv⟩

set_option maxRecDepth 100000 in
/-- C3 witness: the round trip evaluated on a concrete invoice with every
optional field, an alternate beneficiary, an endpoint and an unknown
record populated. -/
theorem C3_round_trip_witness :
    richFix.valid = true ∧
    (Invoice.decode richFix.encode = some richFix ∧
      Invoice.parseText richFix.toText = some richFix) :=
  ⟨by decide, C3_round_trip richFix (by decide)⟩

/-- C6: the strict order on invoices derived from `Ord for Invoice` holds
exactly when the canonical text encodings compare lexicographically as
strings. -/
theorem C6_order_is_text_order (x y : Invoice) :
    Invoice.ltInv x y ↔ x.toText < y.toText := by
  exact ((charsCmp_lt x.toText.data y.toText.data).trans
    (List.lt_iff_lex_lt x.toText.data y.toText.data)).trans
    String.lt_iff_toList_lt.symm

/-- C7: the amount grammar: any letter-case (trimmed) spelling of "any"
parses to `Any`, "1000" parses to `Normal 1000`, "0.5" parses to
`Milli 0 5`, and "abc" fails with a grammar error. -/
theorem C7_amount_grammar :
    (∀ s : String, (trimChars s.data).map lowerChar = "any".data →
      AmountExt.fromStr s = some AmountExt.Any) ∧
    AmountExt.fromStr "1000" = some (AmountExt.Normal 1000) ∧
    AmountExt.fromStr "0.5" = some (AmountExt.Milli 0 5) ∧
    AmountExt.fromStr "abc" = none := by
  refine ⟨?_, by decide, by decide, by decide⟩
  intro s h
  unfold AmountExt.fromStr
  rw [if_pos h]

/-- C7 witness: the case-insensitive branch applied to a concrete
upper-case, padded spelling. -/
theorem C7_amount_grammar_witness :
    AmountExt.fromStr " ANY " = some AmountExt.Any :=
  C7_amount_grammar.1 " ANY " (by decide)

/-- C8: `new` builds a version-0 invoice with the given primary
beneficiary and asset, amount `Normal v` when an amount is supplied and
`Any` otherwise, and every other field absent or at its default. -/
theorem C8_new_defaults (b : Beneficiary) (a : Option Nat) (s : Option AssetId) :
    (Invoice.new b a s).version = 0 ∧
    (Invoice.new b a s).beneficiary = b ∧
    (Invoice.new b a s).asset = s ∧
    (Invoice.new b a s).amount =
      (match a with
       | some x => AmountExt.Normal x
       | none => AmountExt.Any) ∧
    (Invoice.new b a s).alt_beneficiaries = [] ∧
    (Invoice.new b a s).expiry = none ∧
    (Invoice.new b a s).recurrent = Recurrent.NonRecurrent ∧
    (Invoice.new b a s).quantity = none ∧
    (Invoice.new b a s).currency_requirement = none ∧
    (Invoice.new b a s).merchant = none ∧
    (Invoice.new b a s).purpose = none ∧
    (Invoice.new b a s).details = none ∧
    (Invoice.new b a s).signature = none ∧
    (Invoice.new b a s).consignment_endpoints = [] ∧
    (Invoice.new b a s).network = none ∧
    (Invoice.new b a s).unknown = [] := by
  cases a <;> simp [Invoice.new]

/-- C9: the beneficiaries iterator yields the primary beneficiary and
then each alternate in order and nothing else: its k-th yield is the k-th
entry of that list; and a `next` step never changes the underlying
invoice, so a second `beneficiaries()` call restarts the same sequence. -/
theorem C9_beneficiaries_enumeration (v : Invoice) (k : Nat) :
    (v.beneficiaries).nthYield k =
      (v.beneficiary :: v.alt_beneficiaries).get? k ∧
    (∀ it : BeneficiariesIter, it.next.2.invoice = it.invoice) := by
  constructor
  · have h := nthYield_eq v k 0
    simpa [Invoice.beneficiaries] using h
  · intro it
    rfl

/-- C10: the amount grammar does not reject extra dot-separated
components: whenever the first two components parse as u64 and u16, the
parse succeeds with `Milli`, silently discarding the remaining
components. -/
theorem C10_extra_components_ignored (s : String) (c0 c1 : List Char)
    (rest : List (List Char)) (a b : Nat)
    (hsplit : splitDot s.data = c0 :: c1 :: rest)
    (h0 : parseNum (2 ^ 64) c0 = some a)
    (h1 : parseNum (2 ^ 16) c1 = some b) :
    AmountExt.fromStr s = some (AmountExt.Milli a b) := by
  have hne := any_data_of_milli hsplit
  unfold AmountExt.fromStr
  rw [if_neg hne, hsplit]
  simp only [h0, h1]

/-- C10 witness: the parse of "1.2.3" succeeds as `Milli 1 2`, the third
component being discarded. -/
theorem C10_extra_components_witness :
    AmountExt.fromStr "1.2.3" = some (AmountExt.Milli 1 2) :=
  C10_extra_components_ignored "1.2.3" ['1'] ['2'] [['3']] 1 2
    (by decide) (by decide) (by decide)

theorem set_amount_spec (v : Invoice) (a : AmountExt) :
    ((v.set_amount a).1.set_amount a).2 = false ∧
    ((v.set_amount a).2 = false → (v.set_amount a).1 = v) ∧
    ((v.set_amount a).2 = true ↔ v.amount ≠ a) := by
  unfold Invoice.set_amount
  by_cases h : v.amount = a <;> simp [h]

theorem set_recurrent_spec (v : Invoice) (r : Recurrent) :
    ((v.set_recurrent r).1.set_recurrent r).2 = false ∧
    ((v.set_recurrent r).2 = false → (v.set_recurrent r).1 = v) ∧
    ((v.set_recurrent r).2 = true ↔ v.recurrent ≠ r) := by
  unfold Invoice.set_recurrent
  by_cases h : v.recurrent = r <;> simp [h]

theorem set_expiry_spec (v : Invoice) (t : Int) :
    ((v.set_expiry t).1.set_expiry t).2 = false ∧
    ((v.set_expiry t).2 = false → (v.set_expiry t).1 = v) ∧
    ((v.set_expiry t).2 = true ↔ v.expiry ≠ some t) := by
  unfold Invoice.set_expiry
  by_cases h : v.expiry = some t <;> simp [h]

theorem set_no_expiry_spec (v : Invoice) :
    ((v.set_no_expiry).1.set_no_expiry).2 = false ∧
    (v.expiry = none → (v.set_no_expiry).2 = false) ∧
    ((v.set_no_expiry).2 = false → (v.set_no_expiry).1 = v) := by
  unfold Invoice.set_no_expiry
  by_cases h : v.expiry = none <;> simp [h]

theorem set_quantity_spec (v : Invoice) (q : Quantity) :
    ((v.set_quantity q).1.set_quantity q).2 = false ∧
    ((v.set_quantity q).2 = false → (v.set_quantity q).1 = v) ∧
    ((v.set_quantity q).2 = true ↔ v.quantity ≠ some q) := by
  unfold Invoice.set_quantity
  by_cases h : v.quantity = some q <;> simp [h]

theorem remove_quantity_spec (v : Invoice) :
    ((v.remove_quantity).1.remove_quantity).2 = false ∧
    (v.quantity = none → (v.remove_quantity).2 = false) ∧
    ((v.remove_quantity).2 = false → (v.remove_quantity).1 = v) := by
  unfold Invoice.remove_quantity
  by_cases h : v.quantity = none <;> simp [h]

theorem set_currency_spec (v : Invoice) (c : CurrencyData) :
    ((v.set_currency_requirement c).1.set_currency_requirement c).2 = false ∧
    ((v.set_currency_requirement c).2 = false →
      (v.set_currency_requirement c).1 = v) ∧
    ((v.set_currency_requirement c).2 = true ↔
      v.currency_requirement ≠ some c) := by
  unfold Invoice.set_currency_requirement
  by_cases h : v.currency_requirement = some c <;> simp [h]

theorem remove_currency_spec (v : Invoice) :
    ((v.remove_currency_requirement).1.remove_currency_requirement).2 = false ∧
    (v.currency_requirement = none →
      (v.remove_currency_requirement).2 = false) ∧
    ((v.remove_currency_requirement).2 = false →
      (v.remove_currency_requirement).1 = v) := by
  unfold Invoice.remove_currency_requirement
  by_cases h : v.currency_requirement = none <;> simp [h]

theorem set_merchant_spec (v : Invoice) (m : Bytes) :
    ((v.set_merchant m).1.set_merchant m).2 = false ∧
    ((v.set_merchant m).2 = false → (v.set_merchant m).1 = v) ∧
    ((v.set_merchant m).2 = true ↔
      v.merchant ≠ (if m.isEmpty then none else some m)) := by
  unfold Invoice.set_merchant
  by_cases h : v.merchant = (if m = ([] : Bytes) then none else some m) <;>
    simp [h]

theorem remove_merchant_spec (v : Invoice) :
    ((v.remove_merchant).1.remove_merchant).2 = false ∧
    (v.merchant = none → (v.remove_merchant).2 = false) ∧
    ((v.remove_merchant).2 = false → (v.remove_merchant).1 = v) := by
  unfold Invoice.remove_merchant
  by_cases h : v.merchant = none <;> simp [h]

theorem set_purpose_spec (v : Invoice) (p : Bytes) :
    ((v.set_purpose p).1.set_purpose p).2 = false ∧
    ((v.set_purpose p).2 = false → (v.set_purpose p).1 = v) ∧
    ((v.set_purpose p).2 = true ↔
      v.purpose ≠ (if p.isEmpty then none else some p)) := by
  unfold Invoice.set_purpose
  by_cases h : v.purpose = (if p = ([] : Bytes) then none else some p) <;>
    simp [h]

theorem remove_purpose_spec (v : Invoice) :
    ((v.remove_purpose).1.remove_purpose).2 = false ∧
    (v.purpose = none → (v.remove_purpose).2 = false) ∧
    ((v.remove_purpose).2 = false → (v.remove_purpose).1 = v) := by
  unfold Invoice.remove_purpose
  by_cases h : v.purpose = none <;> simp [h]

theorem set_details_spec (v : Invoice) (d : Details) :
    ((v.set_details d).1.set_details d).2 = false ∧
    ((v.set_details d).2 = false → (v.set_details d).1 = v) ∧
    ((v.set_details d).2 = true ↔ v.details ≠ some d) := by
  unfold Invoice.set_details
  by_cases h : v.details = some d <;> simp [h]

theorem remove_details_spec (v : Invoice) :
    ((v.remove_details).1.remove_details).2 = false ∧
    (v.details = none → (v.remove_details).2 = false) ∧
    ((v.remove_details).2 = false → (v.remove_details).1 = v) := by
  unfold Invoice.remove_details
  by_cases h : v.details = none <;> simp [h]

theorem add_endpoint_spec (v : Invoice) (e : ConsignmentEndpoint) :
    ((v.add_consignment_endpoint e).1.add_consignment_endpoint e).2 = false ∧
    ((v.add_consignment_endpoint e).2 = false →
      (v.add_consignment_endpoint e).1 = v) ∧
    ((v.add_consignment_endpoint e).2 = true ↔
      e ∉ v.consignment_endpoints) := by
  unfold Invoice.add_consignment_endpoint
  by_cases h : e ∈ v.consignment_endpoints <;> simp [h]

theorem set_network_spec (v : Invoice) (n : Network) :
    ((v.set_network n).1.set_network n).2 = false ∧
    ((v.set_network n).2 = false → (v.set_network n).1 = v) ∧
    ((v.set_network n).2 = true ↔ v.network ≠ some n) := by
  unfold Invoice.set_network
  by_cases h : v.network = some n <;> simp [h]

/-- C4 counterexample: the claim as stated says any `set_X(value)` called
twice returns `true` then `false`; on a fresh invoice whose amount is
already `Normal 5`, the first `set_amount(Normal 5)` call already
returns `false`. -/
theorem C4_counterexample :
    (unsignedFix.set_amount (AmountExt.Normal 5)).2 = false := by
  decide

/-- C4 amended: for every mutator, the second of two identical calls
returns false; a first call returns true exactly when the (normalized)
value differs from the current field; removing an already-absent field
returns false; and whenever a mutator returns false the entire invoice,
signature included, is unchanged. -/
theorem C4_mutator_contract (v : Invoice) (a : AmountExt) (r : Recurrent)
    (t : Int) (q : Quantity) (c : CurrencyData) (m p : Bytes) (d : Details)
    (e : ConsignmentEndpoint) (n : Network) :
    (((v.set_amount a).1.set_amount a).2 = false ∧
      ((v.set_amount a).2 = false → (v.set_amount a).1 = v) ∧
      ((v.set_amount a).2 = true ↔ v.amount ≠ a)) ∧
    (((v.set_recurrent r).1.set_recurrent r).2 = false ∧
      ((v.set_recurrent r).2 = false → (v.set_recurrent r).1 = v) ∧
      ((v.set_recurrent r).2 = true ↔ v.recurrent ≠ r)) ∧
    (((v.set_expiry t).1.set_expiry t).2 = false ∧
      ((v.set_expiry t).2 = false → (v.set_expiry t).1 = v) ∧
      ((v.set_expiry t).2 = true ↔ v.expiry ≠ some t)) ∧
    (((v.set_no_expiry).1.set_no_expiry).2 = false ∧
      (v.expiry = none → (v.set_no_expiry).2 = false) ∧
      ((v.set_no_expiry).2 = false → (v.set_no_expiry).1 = v)) ∧
    (((v.set_quantity q).1.set_quantity q).2 = false ∧
      ((v.set_quantity q).2 = false → (v.set_quantity q).1 = v) ∧
      ((v.set_quantity q).2 = true ↔ v.quantity ≠ some q)) ∧
    (((v.remove_quantity).1.remove_quantity).2 = false ∧
      (v.quantity = none → (v.remove_quantity).2 = false) ∧
      ((v.remove_quantity).2 = false → (v.remove_quantity).1 = v)) ∧
    (((v.set_currency_requirement c).1.set_currency_requirement c).2 = false ∧
      ((v.set_currency_requirement c).2 = false →
        (v.set_currency_requirement c).1 = v) ∧
      ((v.set_currency_requirement c).2 = true ↔
        v.currency_requirement ≠ some c)) ∧
    (((v.remove_currency_requirement).1.remove_currency_requirement).2 = false ∧
      (v.currency_requirement = none →
        (v.remove_currency_requirement).2 = false) ∧
      ((v.remove_currency_requirement).2 = false →
        (v.remove_currency_requirement).1 = v)) ∧
    (((v.set_merchant m).1.set_merchant m).2 = false ∧
      ((v.set_merchant m).2 = false → (v.set_merchant m).1 = v) ∧
      ((v.set_merchant m).2 = true ↔
        v.merchant ≠ (if m.isEmpty then none else some m))) ∧
    (((v.remove_merchant).1.remove_merchant).2 = false ∧
      (v.merchant = none → (v.remove_merchant).2 = false) ∧
      ((v.remove_merchant).2 = false → (v.remove_merchant).1 = v)) ∧
    (((v.set_purpose p).1.set_purpose p).2 = false ∧
      ((v.set_purpose p).2 = false → (v.set_purpose p).1 = v) ∧
      ((v.set_purpose p).2 = true ↔
        v.purpose ≠ (if p.isEmpty then none else some p))) ∧
    (((v.remove_purpose).1.remove_purpose).2 = false ∧
      (v.purpose = none → (v.remove_purpose).2 = false) ∧
      ((v.remove_purpose).2 = false → (v.remove_purpose).1 = v)) ∧
    (((v.set_details d).1.set_details d).2 = false ∧
      ((v.set_details d).2 = false → (v.set_details d).1 = v) ∧
      ((v.set_details d).2 = true ↔ v.details ≠ some d)) ∧
    (((v.remove_details).1.remove_details).2 = false ∧
      (v.details = none → (v.remove_details).2 = false) ∧
      ((v.remove_details).2 = false → (v.remove_details).1 = v)) ∧
    (((v.add_consignment_endpoint e).1.add_consignment_endpoint e).2 = false ∧
      ((v.add_consignment_endpoint e).2 = false →
        (v.add_consignment_endpoint e).1 = v) ∧
      ((v.add_consignment_endpoint e).2 = true ↔
        e ∉ v.consignment_endpoints)) ∧
    (((v.set_network n).1.set_network n).2 = false ∧
      ((v.set_network n).2 = false → (v.set_network n).1 = v) ∧
      ((v.set_network n).2 = true ↔ v.network ≠ some n)) :=
  ⟨set_amount_spec v a, set_recurrent_spec v r, set_expiry_spec v t,
    set_no_expiry_spec v, set_quantity_spec v q, remove_quantity_spec v,
    set_currency_spec v c, remove_currency_spec v, set_merchant_spec v m,
    remove_merchant_spec v, set_purpose_spec v p, remove_purpose_spec v,
    set_details_spec v d, remove_details_spec v, add_endpoint_spec v e,
    set_network_spec v n⟩

/-- C4 witness: the amended contract applied to a concrete fresh invoice:
an unchanged `set_amount` reports false and leaves the invoice intact,
while a changing `set_merchant` reports true. -/
theorem C4_mutator_contract_witness :
    (unsignedFix.set_amount (AmountExt.Normal 5)).1 = unsignedFix ∧
    (unsignedFix.set_merchant [3]).2 = true :=
  ⟨(C4_mutator_contract unsignedFix (AmountExt.Normal 5)
      Recurrent.NonRecurrent 0 ⟨0, none, 1⟩ ⟨⟨85, 83, 68⟩, 1, 2, [104]⟩
      [3] [4] ⟨77, [115]⟩ (ConsignmentEndpoint.Storm [2])
      Network.Mainnet).1.2.1 (by decide),
   (C4_mutator_contract unsignedFix (AmountExt.Normal 5)
      Recurrent.NonRecurrent 0 ⟨0, none, 1⟩ ⟨⟨85, 83, 68⟩, 1, 2, [104]⟩
      [3] [4] ⟨77, [115]⟩ (ConsignmentEndpoint.Storm [2])
      Network.Mainnet).2.2.2.2.2.2.2.2.1.2.2.mpr (by decide)⟩

/-- C5: the asset classification table: an absent asset is native exactly
on the default (mainnet) chain and invalid elsewhere; a present asset is
native when it is the target chain's native-asset id, invalid when it is
a known registry chain's native id other than the target's, and a
non-native (contract) asset when it matches no known native id. -/
theorem C5_classification_table (v : Invoice) (c : Option Chain) :
    (v.asset = none → c = some Chain.Mainnet →
      v.classify_asset c = AssetClass.Native) ∧
    (v.asset = none → c ≠ some Chain.Mainnet →
      v.classify_asset c = AssetClass.InvalidNativeChain) ∧
    (∀ id ch, v.asset = some id → c = some ch → id = ch.native_asset →
      v.classify_asset c = AssetClass.Native) ∧
    (∀ id, v.asset = some id → (∀ ch, c = some ch → id ≠ ch.native_asset) →
      id ∈ registryChains.map Chain.native_asset →
      v.classify_asset c = AssetClass.InvalidNativeChain) ∧
    (∀ id, v.asset = some id → (∀ ch, c = some ch → id ≠ ch.native_asset) →
      id ∉ registryChains.map Chain.native_asset →
      v.classify_asset c = AssetClass.Other id) := by
  refine ⟨?_, ?_, ?_, ?_, ?_⟩
  · intro h1 h2
    subst h2
    simp [Invoice.classify_asset, h1]
  · intro h1 h2
    rcases c with _ | ch
    · simp [Invoice.classify_asset, h1]
    · cases ch with
      | Mainnet => exact absurd rfl h2
      | Testnet3 => simp [Invoice.classify_asset, h1]
      | Regtest h => simp [Invoice.classify_asset, h1]
      | Signet => simp [Invoice.classify_asset, h1]
      | LiquidV1 => simp [Invoice.classify_asset, h1]
  · intro id ch h1 h2 h3
    subst h2
    simp [Invoice.classify_asset, h1, h3]
  · intro id h1 h2 h3
    obtain ⟨ch2, hch2, hid⟩ := List.mem_map.1 h3
    have hex : ∃ x ∈ registryChains, x.native_asset = id := ⟨ch2, hch2, hid⟩
    rcases c with _ | ch
    · simp [Invoice.classify_asset, h1, hex]
    · have hne : (id == ch.native_asset) = false := by
        simpa using h2 ch rfl
      simp [Invoice.classify_asset, h1, hex, hne]
  · intro id h1 h2 h3
    have hnex : ¬ ∃ x ∈ registryChains, x.native_asset = id := by
      rintro ⟨x, hx, hxe⟩
      exact h3 (List.mem_map.2 ⟨x, hx, hxe⟩)
    rcases c with _ | ch
    · simp [Invoice.classify_asset, h1, hnex]
    · have hne : (id == ch.native_asset) = false := by
        simpa using h2 ch rfl
      simp [Invoice.classify_asset, h1, hnex, hne]

/-- C5 witness: the five classification rows evaluated at concrete
assets and chains (native ids: mainnet 0, testnet3 1, signet 2,
liquidv1 3). -/
theorem C5_classification_witness :
    (Invoice.new benFix none none).classify_asset (some Chain.Mainnet) =
      AssetClass.Native ∧
    (Invoice.new benFix none none).classify_asset (some Chain.Signet) =
      AssetClass.InvalidNativeChain ∧
    (Invoice.new benFix none (some 2)).classify_asset (some Chain.Signet) =
      AssetClass.Native ∧
    (Invoice.new benFix none (some 0)).classify_asset (some Chain.Signet) =
      AssetClass.InvalidNativeChain ∧
    (Invoice.new benFix none (some 77)).classify_asset (some Chain.Signet) =
      AssetClass.Other 77 :=
  ⟨(C5_classification_table (Invoice.new benFix none none)
      (some Chain.Mainnet)).1 (by decide) rfl,
   (C5_classification_table (Invoice.new benFix none none)
      (some Chain.Signet)).2.1 (by decide) (by decide),
   (C5_classification_table (Invoice.new benFix none (some 2))
      (some Chain.Signet)).2.2.1 2 Chain.Signet (by decide) rfl (by decide),
   (C5_classification_table (Invoice.new benFix none (some 0))
      (some Chain.Signet)).2.2.2.1 0 (by decide)
      (by intro ch hch; cases hch; decide) (by decide),
   (C5_classification_table (Invoice.new benFix none (some 77))
      (some Chain.Signet)).2.2.2.2 77 (by decide)
      (by intro ch hch; cases hch; decide) (by decide)⟩

end Invoices
